import Mathlib

/-
Shallow embedding of the Cards Against Humanity game engine of this
repository (src/game.py and the duplicated copy in src/plugin.py).

Python values that can live in the white deck are either plain card
strings or, after a player removal, the (player, rendered choice) tuple
that `remove_player` appends verbatim (game.py line 252 / plugin.py line
600); `Val` models this heterogeneous value space, with a Player object
represented by its (unique) nick.

Mutable objects are modelled by an explicit `Game` record keyed by player
name; Python dicts are association lists in insertion order, and
`collections.deque` is a list whose head is the left end.  Calls to
`random.shuffle` are modelled by explicit shuffle-function parameters;
theorems that depend on deck contents assume those functions permute
their input.  Exceptions are `Except (Err × Game)`: the carried `Game`
is the (possibly partially mutated) state at the moment the exception
escapes, matching Python's in-place mutation semantics.
-/

inductive Val where
  | s : String → Val
  | pr : Val → Val → Val
deriving DecidableEq

inductive PState where
  | waiting
  | choosing
  | picking
deriving DecidableEq

inductive GState where
  | starting
  | waitingChoices
  | waitingPick
  | over
deriving DecidableEq

/-- A Player object of src/game.py lines 30-41: state, points, hand
(name is the association-list key; the back-reference to the game is the
enclosing record). -/
structure PlayerRec where
  state : PState := .waiting
  points : Nat := 0
  hand : List Val := []
deriving DecidableEq

/-- The Game object of src/game.py lines 87-114 (equivalently
src/plugin.py lines 436-462; the `Lock` of game.py has no behaviour). -/
structure Game where
  maxPoints : Nat
  players : List (String × PlayerRec)
  choices : List (String × Val)
  scores : List (String × PlayerRec)
  state : GState
  picker : Option String
  blackCard : Option String
  requiredCards : Nat
  playDeque : List String
  deckW : List Val
  deckB : List String
deriving DecidableEq

/-- The exceptions raised by the engine: its own exception classes
(src/game.py lines 10-27) plus the Python builtins it lets escape. -/
inductive Err where
  | invalidMove
  | invalidPick
  | invalidChoice
  | playerExists
  | notEnoughPlayers
  | keyError
  | valueError
  | indexError
  | attributeError
  | typeError
  | ioError
deriving DecidableEq

/-- Result of an operation: on error, the carried game is the state at
the moment the exception escapes (Python mutates in place). -/
abbrev GRes := Except (Err × Game) Game

/-- The state after an operation, whether it succeeded or raised. -/
def resState : GRes → Game
  | .ok g => g
  | .error (_, g) => g

/-- The error an operation raised, if any. -/
def resErr : GRes → Option Err
  | .ok _ => none
  | .error (e, _) => some e

def DEFAULT_HAND_SIZE : Nat := 10

/-- Python dict lookup on an insertion-ordered association list. -/
def lookupP (ps : List (String × PlayerRec)) (n : String) : Option PlayerRec :=
  match ps with
  | [] => none
  | (m, p) :: rest => if m = n then some p else lookupP rest n

/-- In-place mutation of the player object stored under a key: updates
the first binding, no-op if the key is absent (a Python attribute write
on an object no longer in the dict leaves the dict unchanged). -/
def updateP (ps : List (String × PlayerRec)) (n : String)
    (f : PlayerRec → PlayerRec) : List (String × PlayerRec) :=
  match ps with
  | [] => []
  | (m, p) :: rest =>
      if m = n then (m, f p) :: rest else (m, p) :: updateP rest n f

/-- `del players[name]`: removes the first binding, keeps order. -/
def eraseP (ps : List (String × PlayerRec)) (n : String) :
    List (String × PlayerRec) :=
  match ps with
  | [] => []
  | (m, p) :: rest => if m = n then rest else (m, p) :: eraseP rest n

/-- Python `list.remove` / `deque.remove`: removes the first occurrence
of the value, `none` models the ValueError when it is absent. -/
def listRemove {α : Type} [DecidableEq α] (l : List α) (x : α) :
    Option (List α) :=
  match l with
  | [] => none
  | y :: ys => if y = x then some ys else (listRemove ys x).map (y :: ·)

/-- Python `str.strip()`: drop leading and trailing whitespace. -/
def pyStripChars (cs : List Char) : List Char :=
  ((cs.dropWhile Char.isWhitespace).reverse.dropWhile Char.isWhitespace).reverse

def pyStrip (s : String) : String := String.mk (pyStripChars s.data)

/-- Python `str.split("\n")`: split at every newline; the empty string
yields one empty field. -/
def splitNLChars : List Char → List (List Char)
  | [] => [[]]
  | c :: rest =>
    match splitNLChars rest with
    | [] => [[]]
    | seg :: segs => if c = '\n' then [] :: seg :: segs else (c :: seg) :: segs

def splitNL (s : String) : List String := (splitNLChars s.data).map String.mk

/-- Digits-only numeral value, `none` on empty or non-digit input. -/
def digitsVal (cs : List Char) : Option Nat :=
  if cs ≠ [] ∧ cs.all Char.isDigit then
    some (cs.foldl (fun a c => a * 10 + (c.toNat - 48)) 0)
  else none

/-- Python `int(str)`: optional surrounding whitespace, optional sign,
then decimal digits; `none` models the ValueError on malformed input. -/
def pyInt (s : String) : Option Int :=
  match pyStripChars s.data with
  | '-' :: cs => (digitsVal cs).map (fun n => -(n : Int))
  | '+' :: cs => (digitsVal cs).map (fun n => (n : Int))
  | cs => (digitsVal cs).map (fun n => (n : Int))

/-- Python list indexing `l[i]` with negative indices counting from the
end; `none` models the IndexError outside `[-len, len)`. -/
def pyIndex {α : Type} (l : List α) (i : Int) : Option α :=
  if 0 ≤ i then l.get? i.toNat
  else
    let j : Int := (l.length : Int) + i
    if 0 ≤ j then l.get? j.toNat else none

/-- Number of non-overlapping occurrences of `%s`, Python
`black_card.count('%s')` (src/game.py line 195). -/
def countPSChars : List Char → Nat
  | '%' :: 's' :: rest => countPSChars rest + 1
  | _ :: rest => countPSChars rest
  | [] => 0

def countPS (s : String) : Nat := countPSChars s.toList

/-- Python `str(v)` as used by `%s` substitution; the tuple case mirrors
the shape of a tuple repr (never reached by the claims below). -/
def valToStr : Val → String
  | .s t => t
  | .pr a b => "(" ++ valToStr a ++ ", " ++ valToStr b ++ ")"

/-- Printf-style substitution `black % cards`: each `%s`, left to right,
is replaced by the string form of the next argument. -/
def substPS : List Char → List Val → List Char
  | '%' :: 's' :: rest, v :: vs => (valToStr v).toList ++ substPS rest vs
  | '%' :: 's' :: rest, [] => '%' :: 's' :: substPS rest []
  | c :: rest, vs => c :: substPS rest vs
  | [], _ => []

/-- The choice-rendering switch of src/game.py lines 337-344: a black
card without `%s` keeps the raw first card (which is a `Val`); otherwise
the blanks are filled in.  `none` models the IndexError of `cards[0]` on
an empty tuple. -/
def renderChoice (black : String) (staged : List Val) : Option Val :=
  if countPS black = 0 then staged.head?
  else some (.s (String.mk (substPS black.toList staged)))

/-- `Game._load_deck` (src/game.py lines 116-133), with the file system
modelled by an optional file content (`none` = missing file, raising
FileNotFoundError).  The comment filter is the source's
remove-while-iterating loop, and the shuffle is the parameter `sh`. -/
def isComment (s : String) : Bool := s.take 1 = "#"

/-- The `for card in cards: if card[:1] == '#': cards.remove(card)` loop
of src/game.py lines 127-129, with Python's list-iterator semantics: the
iterator index advances even when the current element was removed.
Structured with explicit fuel so that it evaluates by reduction; each
iteration advances the index while the list never grows, so
`cards.length - i` bounds the remaining iterations, and when the fuel is
exhausted the loop condition `i < len(cards)` has already failed. -/
def filterFuel : Nat → Nat → List String → List String
  | 0, _, cards => cards
  | f + 1, i, cards =>
    if h : i < cards.length then
      let card := cards.get ⟨i, h⟩
      if isComment card then filterFuel f (i + 1) (cards.erase card)
      else filterFuel f (i + 1) cards
    else cards

def filterLoop (i : Nat) (cards : List String) : List String :=
  filterFuel (cards.length - i) i cards

def loadDeck (sh : List String → List String) (contents : Option String) :
    Except Err (List String) :=
  match contents with
  | none => .error .ioError
  | some text => .ok (sh (filterLoop 0 (splitNL (pyStrip text))))

/-- `Player.draw` (src/game.py lines 43-50): append cards popped from
the end of the white deck until the hand holds `size` cards or the deck
is empty; returns the new hand and the remaining deck.  Structured with
explicit fuel so that it evaluates by reduction; every iteration grows
the hand by one, so `size - hand.length` bounds the remaining
iterations, and when the fuel is exhausted the loop condition
`len(hand) < size` has already failed. -/
def drawFuel : Nat → List Val → List Val → Nat → List Val × List Val
  | 0, hand, dw, _ => (hand, dw)
  | f + 1, hand, dw, size =>
    if h : hand.length < size ∧ dw ≠ [] then
      drawFuel f (hand ++ [dw.getLast h.2]) dw.dropLast size
    else (hand, dw)

def draw (hand dw : List Val) (size : Nat) : List Val × List Val :=
  drawFuel (size - hand.length) hand dw size

/-- The per-player loop of `Game._prepare_round` (src/game.py lines
166-173): in roster order, end the game at the first player whose points
equal the threshold (the remaining players are untouched), otherwise top
off the player's hand.  Returns the updated roster, the remaining white
deck, and whether the game ended. -/
def prepLoop (maxP : Nat) :
    List (String × PlayerRec) → List Val →
      List (String × PlayerRec) × List Val × Bool
  | [], dw => ([], dw, false)
  | (n, p) :: rest, dw =>
    if p.points = maxP then ((n, p) :: rest, dw, true)
    else
      let hd := draw p.hand dw DEFAULT_HAND_SIZE
      let r := prepLoop maxP rest hd.2
      ((n, { p with hand := hd.1 }) :: r.1, r.2.1, r.2.2)

/-- The stable ascending comparison used by `Game._tally_scores`
(src/game.py line 289): Python's `sorted` with `key=lambda p: p[1].points`. -/
def byPoints (a b : String × PlayerRec) : Prop := a.2.points ≤ b.2.points

instance : DecidableRel byPoints := fun a b => Nat.decLe a.2.points b.2.points

instance : IsTotal (String × PlayerRec) byPoints :=
  ⟨fun a b => Nat.le_total a.2.points b.2.points⟩

instance : IsTrans (String × PlayerRec) byPoints :=
  ⟨fun _ _ _ h1 h2 => Nat.le_trans h1 h2⟩

/-- The `for player in self.players: self.players[player].state = CHOOSING`
loop of src/game.py lines 188-189 (and its `_prepare_picks` analogue):
set every player object's state. -/
def setStateAll (st : PState) (ps : List (String × PlayerRec)) :
    List (String × PlayerRec) :=
  ps.map (fun np => (np.1, { np.2 with state := st }))

/-- One step of the judge-departure loop of src/game.py lines 270-272:
`player.hand.append(card)` for a submission tuple. -/
def giveBack (ps : List (String × PlayerRec)) (c : String × Val) :
    List (String × PlayerRec) :=
  updateP ps c.1 (fun p => { p with hand := p.hand ++ [c.2] })

/-- `Game._tally_scores` (src/game.py lines 287-292): a stable ascending
sort by points, then an in-place reverse of the whole list. -/
def tallyScores (ps : List (String × PlayerRec)) : List (String × PlayerRec) :=
  (List.insertionSort byPoints ps).reverse

/-- `Game._end_game` (src/game.py lines 203-206). -/
def endGame (g : Game) : Game :=
  { g with scores := tallyScores g.players, state := .over }

/-- The opening shuffle of `Game._prepare_round` (src/game.py lines
162-164): both decks are shuffled while the game is still starting. -/
def prepShuffle (shW : List Val → List Val) (shB : List String → List String)
    (g : Game) : Game :=
  if g.state = .starting
  then { g with deckW := shW g.deckW, deckB := shB g.deckB }
  else g

/-- The drawing loop of `_prepare_round` (src/game.py lines 166-173)
applied to the game record; the flag reports an early `_end_game`. -/
def prepDraw (g : Game) : Game × Bool :=
  let r := prepLoop g.maxPoints g.players g.deckW
  ({ g with players := r.1, deckW := r.2.1 }, r.2.2)

/-- The tail of `_prepare_round` after the drawing loop (src/game.py
lines 175-201): end on a depleted deck, else rotate the play deque to
select the picker, reset the choices, set player states, deal the black
card and derive the required card count.  The IndexError branch models
`deque.pop()` on an empty deque. -/
def prepFinish (g2 : Game) (ended : Bool) : GRes :=
  if ended then .ok (endGame g2)
  else if g2.deckW.length = 0 ∨ g2.deckB.length = 0 then .ok (endGame g2)
  else
    match g2.playDeque.getLast?, g2.deckB.getLast? with
    | some pk, some bc =>
      let ps1 := setStateAll .choosing g2.players
      let ps2 := updateP ps1 pk (fun p => { p with state := .waiting })
      let req := countPS bc
      .ok { g2 with
        playDeque := pk :: g2.playDeque.dropLast,
        picker := some pk,
        choices := [],
        players := ps2,
        blackCard := some bc,
        deckB := g2.deckB.dropLast,
        requiredCards := if req = 0 then 1 else req,
        state := .waitingChoices }
    | _, _ => .error (.indexError, g2)

/-- `Game._prepare_round` (src/game.py lines 152-201), assembled from
the three stages above.  `shW`/`shB` are the `random.shuffle` calls run
when the game is still starting. -/
def prepareRound (shW : List Val → List Val) (shB : List String → List String)
    (g0 : Game) : GRes :=
  let gd := prepDraw (prepShuffle shW shB g0)
  prepFinish gd.1 gd.2

/-- `Game._prepare_picks` (src/game.py lines 276-285): shuffle the
submissions, set the picker's state and the game state.  A `None` picker
models the AttributeError of `self.picker.state`. -/
def preparePicks (shC : List (String × Val) → List (String × Val))
    (g0 : Game) : GRes :=
  let g1 := { g0 with choices := shC g0.choices }
  match g1.picker with
  | none => .error (.attributeError, g1)
  | some pk =>
      .ok { g1 with
        players := updateP g1.players pk (fun p => { p with state := .picking }),
        state := .waitingPick }

/-- `Game.ready` (src/game.py lines 135-150). -/
def ready (shW : List Val → List Val) (shB : List String → List String)
    (g : Game) : GRes :=
  if g.state ≠ .starting then .error (.invalidMove, g)
  else if g.players.length < 3 then .error (.notEnoughPlayers, g)
  else prepareRound shW shB g

/-- `Game.add_player` (src/game.py lines 208-228); `shD` is the shuffle
of the play deque. -/
def addPlayer (shD : List String → List String) (g : Game) (name : String) :
    GRes :=
  if g.state ≠ .starting then .error (.invalidMove, g)
  else if (lookupP g.players name).isSome then .error (.playerExists, g)
  else .ok { g with
    players := g.players ++ [(name, {})],
    playDeque := shD (g.playDeque ++ [name]) }

/-- `Game.choose` (src/game.py lines 320-351): phase check, card-count
check, choice rendering, append, and the exact-count transition to the
picking phase. -/
def gameChoose (shC : List (String × Val) → List (String × Val)) (g : Game)
    (name : String) (staged : List Val) : GRes :=
  if g.state ≠ .waitingChoices then .error (.invalidMove, g)
  else if staged.length ≠ g.requiredCards then .error (.invalidChoice, g)
  else
    match g.blackCard with
    | none => .error (.typeError, g)
    | some black =>
      match renderChoice black staged with
      | none => .error (.indexError, g)
      | some choice =>
        let g1 := { g with choices := g.choices ++ [(name, choice)] }
        if (g1.players.length : Int) - 1 = (g1.choices.length : Int)
        then preparePicks shC g1
        else .ok g1

/-- The staging loop of `Player.choose` (src/game.py lines 64-70): each
typed index is parsed with `int` and resolved against the hand; any
exception (`ValueError` from `int`, `IndexError` from the subscript)
yields `none`, which the source turns into InvalidChoiceError. -/
def stageChoices (hand : List Val) : List String → Option (List Val)
  | [] => some []
  | c :: cs =>
    match pyInt c with
    | none => none
    | some i =>
      match pyIndex hand i with
      | none => none
      | some v => (stageChoices hand cs).map (v :: ·)

/-- The removal loop of `Player.choose` (src/game.py lines 78-79):
`hand.remove(choice)` card by card; on a missing card the loop stops
with the partially mutated hand and `false` (Python raises ValueError
there, with the earlier removals already applied). -/
def removeStaged (hand : List Val) : List Val → List Val × Bool
  | [] => (hand, true)
  | c :: cs =>
    match listRemove hand c with
    | none => (hand, false)
    | some h1 => removeStaged h1 cs

/-- `Player.choose` (src/game.py lines 52-84): state check, staging,
`Game.choose`, removal from the hand, redraw, and the state reset.  The
player object is looked up by nick; mutations go through the roster. -/
def playerChoose (shC : List (String × Val) → List (String × Val)) (g : Game)
    (name : String) (cards : List String) : GRes :=
  match lookupP g.players name with
  | none => .error (.keyError, g)
  | some pl =>
    if pl.state ≠ .choosing then .error (.invalidMove, g)
    else
      match stageChoices pl.hand cards with
      | none => .error (.invalidChoice, g)
      | some staged =>
        match gameChoose shC g name staged with
        | .error e => .error e
        | .ok g1 =>
          let pl1 := (lookupP g1.players name).getD pl
          let rem := removeStaged pl1.hand staged
          if rem.2 then
            let hd := draw rem.1 g1.deckW DEFAULT_HAND_SIZE
            let ps1 := updateP g1.players name
              (fun p => { p with hand := hd.1, state := .waiting })
            .ok { g1 with deckW := hd.2, players := ps1 }
          else
            let ps1 := updateP g1.players name (fun p => { p with hand := rem.1 })
            .error (.valueError, { g1 with players := ps1 })

/-- `Game.pick` (src/game.py lines 294-318): phase check, `int(choice)`
(whose ValueError is NOT caught: the `try` only catches IndexError),
subscript into the submissions (IndexError caught as InvalidPickError),
point award, tally, next round. -/
def pick (shW : List Val → List Val) (shB : List String → List String)
    (g : Game) (choice : String) : GRes :=
  if g.state ≠ .waitingPick then .error (.invalidMove, g)
  else
    match pyInt choice with
    | none => .error (.valueError, g)
    | some i =>
      match pyIndex g.choices i with
      | none => .error (.invalidPick, g)
      | some w =>
        let ps1 := updateP g.players w.1 (fun p => { p with points := p.points + 1 })
        let g1 := { g with players := ps1 }
        let g2 := { g1 with scores := tallyScores g1.players }
        prepareRound shW shB g2

/-- The submission-excision loop of `remove_player` (src/game.py lines
249-252): `for idx, choice in enumerate(self.choices)` with a
`del self.choices[idx]` inside, so after a deletion the iterator skips
the element that shifted into the deleted slot; each deleted submission
is appended to the white deck as the whole (player, choice) tuple.
Returns the remaining submissions and the appended deck entries.
Structured with explicit fuel so that it evaluates by reduction; each
iteration advances the index while the list never grows, so
`cs.length - i` bounds the remaining iterations, and when the fuel is
exhausted the loop condition has already failed. -/
def exciseFuel (name : String) :
    Nat → Nat → List (String × Val) → List Val →
      List (String × Val) × List Val
  | 0, _, cs, acc => (cs, acc)
  | f + 1, i, cs, acc =>
    if h : i < cs.length then
      let c := cs.get ⟨i, h⟩
      if c.1 = name then
        exciseFuel name f (i + 1) (cs.eraseIdx i) (acc ++ [Val.pr (.s c.1) c.2])
      else exciseFuel name f (i + 1) cs acc
    else (cs, acc)

def exciseLoop (name : String) (i : Nat) (cs : List (String × Val))
    (acc : List Val) : List (String × Val) × List Val :=
  exciseFuel name (cs.length - i) i cs acc

/-- The shared tail of `remove_player` (src/game.py lines 243-274 and
src/plugin.py lines 591-622, textually identical): return the hand to
the white deck (popped from the end, hence reversed), excise the
player's submission, shuffle the white deck, then the end-of-game /
advance-to-pick / judge-departure branches.  `g0` already has the player
deleted from the roster and the play deque; `pl` is the removed player's
object. -/
def removeCore (shW : List Val → List Val) (shB : List String → List String)
    (shC : List (String × Val) → List (String × Val))
    (g0 : Game) (name : String) (pl : PlayerRec) : GRes :=
  let g1 := { g0 with deckW := g0.deckW ++ pl.hand.reverse }
  let ex := exciseLoop name 0 g1.choices []
  let g2 := { g1 with choices := ex.1, deckW := shW (g1.deckW ++ ex.2) }
  if g2.state ≠ .starting ∧ g2.players.length < 3 then .ok (endGame g2)
  else if g2.state = .waitingChoices ∧
      (g2.players.length : Int) - 1 = (g2.choices.length : Int) then
    preparePicks shC g2
  else if g2.state ≠ .starting then
    match g2.picker with
    | none => .error (.attributeError, g2)
    | some pk =>
      if pk = name then
        let ps3 := g2.choices.foldl giveBack g2.players
        let g3 := { g2 with players := ps3 }
        prepareRound shW shB g3
      else .ok g2
  else .ok g2

/-- `Game.remove_player` as written in src/plugin.py lines 578-622: look
the player up (KeyError when absent), delete the roster entry, remove
the same object from the play deque (`self.play_deque.remove(player)`,
ValueError when absent), then the shared tail. -/
def pluginRemovePlayer (shW : List Val → List Val)
    (shB : List String → List String)
    (shC : List (String × Val) → List (String × Val))
    (g : Game) (name : String) : GRes :=
  match lookupP g.players name with
  | none => .error (.keyError, g)
  | some pl =>
    let g1 := { g with players := eraseP g.players name }
    match listRemove g1.playDeque name with
    | none => .error (.valueError, g1)
    | some dq => removeCore shW shB shC { g1 with playDeque := dq } name pl

/-- `Game.remove_player` as written in src/game.py lines 230-274: line
241 reads `self.players[name]` again, after the `del self.players[name]`
on line 240, so when the key is gone the second lookup raises KeyError
with the roster entry already deleted.  (With the dict invariant of
unique keys the continuation below the second lookup is dead code; it is
kept to mirror the source text.) -/
def gameRemovePlayer (shW : List Val → List Val)
    (shB : List String → List String)
    (shC : List (String × Val) → List (String × Val))
    (g : Game) (name : String) : GRes :=
  match lookupP g.players name with
  | none => .error (.keyError, g)
  | some pl =>
    let g1 := { g with players := eraseP g.players name }
    match lookupP g1.players name with
    | none => .error (.keyError, g1)
    | some _ =>
      match listRemove g1.playDeque name with
      | none => .error (.valueError, g1)
      | some dq => removeCore shW shB shC { g1 with playDeque := dq } name pl

/-- The hand of a registered player. -/
def handOf (g : Game) (n : String) : Option (List Val) :=
  (lookupP g.players n).map (fun p => p.hand)

/-- The points of a registered player. -/
def pointsOf (g : Game) (n : String) : Option Nat :=
  (lookupP g.players n).map (fun p => p.points)

/-- Relation between a player record before and after the drawing loop
of round preparation: same name, points and state, hand only extended. -/
def prepRel (a b : String × PlayerRec) : Prop :=
  b.1 = a.1 ∧ b.2.points = a.2.points ∧ b.2.state = a.2.state ∧
    ∃ t, b.2.hand = a.2.hand ++ t

/-- The (name, points) projection of a roster. -/
def pointsKeys (ps : List (String × PlayerRec)) : List (String × Nat) :=
  ps.map (fun np => (np.1, np.2.points))

/-- Three registered players in the starting state. -/
def demoStart : Game :=
  { maxPoints := 5,
    players := [("a", {}), ("b", {}), ("c", {})],
    choices := [], scores := [], state := .starting, picker := none,
    blackCard := none, requiredCards := 0,
    playDeque := ["a", "b", "c"],
    deckW := [.s "w1", .s "w2"], deckB := ["b1"] }

/-- A round awaiting choices where player b holds the card "x" exactly
once; prompt with two blanks, so two indices are required. -/
def gC2 : Game :=
  { maxPoints := 5,
    players := [("a", ⟨.waiting, 0, []⟩),
                ("b", ⟨.choosing, 0, [.s "x", .s "y"]⟩),
                ("c", ⟨.choosing, 0, [.s "z"]⟩)],
    choices := [], scores := [], state := .waitingChoices, picker := some "a",
    blackCard := some "%s %s", requiredCards := 2,
    playDeque := ["b", "c", "a"], deckW := [], deckB := ["b2"] }

/-- A round awaiting choices with a pending submission by player b. -/
def gC3 : Game :=
  { maxPoints := 5,
    players := [("a", ⟨.waiting, 0, []⟩), ("b", ⟨.choosing, 0, []⟩),
                ("c", ⟨.choosing, 0, []⟩), ("d", ⟨.choosing, 0, []⟩)],
    choices := [("b", .s "x")],
    scores := [], state := .waitingChoices, picker := some "a",
    blackCard := some "%s", requiredCards := 1,
    playDeque := ["a", "b", "c", "d"], deckW := [.s "w"], deckB := ["k"] }

/-- A judging phase with judge a, all submissions in, and an exhausted
prompt deck (reachable: the last prompt was dealt in the current round). -/
def gC4x : Game :=
  { maxPoints := 5,
    players := [("a", ⟨.picking, 0, [.s "ah"]⟩), ("b", ⟨.waiting, 0, []⟩),
                ("c", ⟨.waiting, 0, []⟩), ("d", ⟨.waiting, 0, []⟩)],
    choices := [("b", .s "xb"), ("c", .s "xc"), ("d", .s "xd")],
    scores := [], state := .waitingPick, picker := some "a",
    blackCard := some "%s", requiredCards := 1,
    playDeque := ["b", "c", "d", "a"], deckW := [.s "w"], deckB := [] }

/-- A judging phase with judge a, all submissions in, and ample decks. -/
def gC4w : Game :=
  { maxPoints := 5,
    players := [("a", ⟨.picking, 0, []⟩), ("b", ⟨.waiting, 0, []⟩),
                ("c", ⟨.waiting, 0, []⟩), ("d", ⟨.waiting, 0, []⟩)],
    choices := [("b", .s "xb"), ("c", .s "xc"), ("d", .s "xd")],
    scores := [], state := .waitingPick, picker := some "a",
    blackCard := some "%s", requiredCards := 1,
    playDeque := ["b", "c", "d", "a"],
    deckW := (List.range 41).map (fun i => .s ("w" ++ toString i)),
    deckB := ["k1"] }

/-- A judging phase among three players with all points tied at zero
except the upcoming winner; the empty response deck makes the next round
preparation end the game, exercising the end-of-game tally as well. -/
def gC5 : Game :=
  { maxPoints := 5,
    players := [("a", ⟨.picking, 0, []⟩), ("b", ⟨.waiting, 0, []⟩),
                ("c", ⟨.waiting, 0, []⟩)],
    choices := [("b", .s "xb"), ("c", .s "xc")],
    scores := [], state := .waitingPick, picker := some "a",
    blackCard := some "%s", requiredCards := 1,
    playDeque := ["b", "c", "a"], deckW := [], deckB := ["k"] }

/-- A state in which player b already holds the winning score while
player a precedes b in roster order with a non-full hand. -/
def gC6 : Game :=
  { maxPoints := 5,
    players := [("a", ⟨.waiting, 0, []⟩), ("b", ⟨.waiting, 5, []⟩)],
    choices := [], scores := [], state := .waitingPick, picker := some "a",
    blackCard := none, requiredCards := 1,
    playDeque := ["a", "b"], deckW := [.s "w1"], deckB := ["k"] }

/-- A round where only player b's submission is still outstanding. -/
def gC7 : Game :=
  { maxPoints := 5,
    players := [("a", ⟨.waiting, 0, []⟩), ("b", ⟨.choosing, 0, [.s "m"]⟩),
                ("c", ⟨.waiting, 0, []⟩)],
    choices := [("c", .s "q")],
    scores := [], state := .waitingChoices, picker := some "a",
    blackCard := some "%s", requiredCards := 1,
    playDeque := ["b", "c", "a"], deckW := [], deckB := ["k"] }

/-- A judging phase with two submissions on the table. -/
def gC8 : Game :=
  { maxPoints := 5,
    players := [("a", ⟨.picking, 0, []⟩),
                ("b", ⟨.waiting, 0, [.s "h1"]⟩),
                ("c", ⟨.waiting, 0, [.s "h2"]⟩)],
    choices := [("b", .s "bx"), ("c", .s "cx")],
    scores := [], state := .waitingPick, picker := some "a",
    blackCard := some "%s", requiredCards := 1,
    playDeque := ["a", "b", "c"], deckW := [.s "w1", .s "w2"], deckB := ["k1", "k2"] }

/-- A name outside the key list looks up to nothing. -/
theorem lookupP_eq_none_of_not_mem (ps : List (String × PlayerRec)) (n : String)
    (h : n ∉ ps.map Prod.fst) : lookupP ps n = none := by
  induction ps with
  | nil => rfl
  | cons hd tl ih =>
    obtain ⟨k, p⟩ := hd
    simp only [List.map_cons, List.mem_cons] at h
    push_neg at h
    simp only [lookupP, if_neg (Ne.symm h.1)]
    exact ih h.2

/-- Lookup succeeds exactly on the key list. -/
theorem lookupP_isSome_iff (ps : List (String × PlayerRec)) (n : String) :
    (lookupP ps n).isSome ↔ n ∈ ps.map Prod.fst := by
  induction ps with
  | nil => simp [lookupP]
  | cons hd tl ih =>
    by_cases h : hd.1 = n
    · simp [lookupP, h]
    · simp only [lookupP]
      rw [if_neg (by exact fun e => h e)]
      simp only [List.map_cons, List.mem_cons, ih]
      constructor
      · exact fun hm => Or.inr hm
      · rintro (he | hm)
        · exact absurd he.symm h
        · exact hm

/-- Deleting a key deletes exactly the first binding of the key list. -/
theorem eraseP_keys (ps : List (String × PlayerRec)) (n : String) :
    (eraseP ps n).map Prod.fst = (ps.map Prod.fst).erase n := by
  induction ps with
  | nil => rfl
  | cons hd tl ih =>
    by_cases h : hd.1 = n
    · simp [eraseP, h, List.erase_cons_head]
    · have hbe : ¬(hd.1 == n) := by simpa using h
      simp [eraseP, h, List.erase_cons_tail, hbe, ih]

/-- With unique keys, the deleted key no longer resolves. -/
theorem lookupP_eraseP_self (ps : List (String × PlayerRec)) (n : String)
    (hnd : (ps.map Prod.fst).Nodup) : lookupP (eraseP ps n) n = none := by
  apply lookupP_eq_none_of_not_mem
  rw [eraseP_keys]
  exact (hnd.mem_erase_iff).not.mpr (by simp)

/-- Deleting a registered key shortens the roster by one. -/
theorem eraseP_length (ps : List (String × PlayerRec)) (n : String)
    (h : (lookupP ps n).isSome) : (eraseP ps n).length + 1 = ps.length := by
  induction ps with
  | nil => simp [lookupP] at h
  | cons hd tl ih =>
    by_cases he : hd.1 = n
    · simp [eraseP, he]
    · simp only [lookupP, if_neg he] at h
      simp [eraseP, if_neg he, ih h]

/-- Updating never changes the key list. -/
theorem updateP_keys (ps : List (String × PlayerRec)) (n : String)
    (f : PlayerRec → PlayerRec) :
    (updateP ps n f).map Prod.fst = ps.map Prod.fst := by
  induction ps with
  | nil => rfl
  | cons hd tl ih =>
    by_cases h : hd.1 = n
    · simp [updateP, h]
    · simp [updateP, h, ih]

/-- Lookup after an update of the same key: the first binding is mapped. -/
theorem lookupP_updateP_self (ps : List (String × PlayerRec)) (n : String)
    (f : PlayerRec → PlayerRec) :
    lookupP (updateP ps n f) n = (lookupP ps n).map f := by
  induction ps with
  | nil => rfl
  | cons hd tl ih =>
    by_cases h : hd.1 = n
    · simp [updateP, lookupP, h]
    · simp [updateP, lookupP, h, ih]

/-- Lookup of a different key is unaffected by an update. -/
theorem lookupP_updateP_ne (ps : List (String × PlayerRec)) (n m : String)
    (f : PlayerRec → PlayerRec) (h : m ≠ n) :
    lookupP (updateP ps n f) m = lookupP ps m := by
  induction ps with
  | nil => rfl
  | cons hd tl ih =>
    obtain ⟨k, p⟩ := hd
    by_cases he : k = n
    · subst he
      have hnm : ¬(k = m) := fun e => h e.symm
      simp [updateP, lookupP, hnm]
    · by_cases hm : k = m
      · simp [updateP, lookupP, he, hm, h]
      · simp [updateP, lookupP, he, hm, ih]

/-- A present value is removed as the first occurrence (Python
`list.remove` agrees with `List.erase`). -/
theorem listRemove_of_mem {α : Type} [DecidableEq α] (l : List α) (x : α)
    (h : x ∈ l) : listRemove l x = some (l.erase x) := by
  induction l with
  | nil => cases h
  | cons y ys ih =>
    by_cases he : y = x
    · subst he
      simp [listRemove, List.erase_cons_head]
    · have hbe : ¬(y == x) := by simpa using he
      have hm : x ∈ ys := by
        rcases List.mem_cons.mp h with h1 | h2
        · exact absurd h1.symm he
        · exact h2
      simp [listRemove, he, ih hm, List.erase_cons_tail, hbe]


/-- Drawing only appends cards to the hand (any fuel). -/
theorem drawFuel_append (f : Nat) : ∀ (hand dw : List Val) (size : Nat),
    ∃ t, (drawFuel f hand dw size).1 = hand ++ t := by
  induction f with
  | zero => exact fun hand dw size => ⟨[], by simp [drawFuel]⟩
  | succ f ih =>
    intro hand dw size
    by_cases h : hand.length < size ∧ dw ≠ []
    · simp only [drawFuel]
      rw [dif_pos h]
      obtain ⟨t, ht⟩ := ih (hand ++ [dw.getLast h.2]) dw.dropLast size
      exact ⟨[dw.getLast h.2] ++ t, by simp [ht]⟩
    · simp only [drawFuel]
      rw [dif_neg h]
      exact ⟨[], by simp⟩

/-- Drawing only appends cards to the hand. -/
theorem draw_append (hand dw : List Val) (size : Nat) :
    ∃ t, (draw hand dw size).1 = hand ++ t :=
  drawFuel_append _ hand dw size

/-- The deck left by a draw is a sublist of the original deck (any
fuel). -/
theorem drawFuel_deck_sublist (f : Nat) : ∀ (hand dw : List Val) (size : Nat),
    List.Sublist (drawFuel f hand dw size).2 dw := by
  induction f with
  | zero => exact fun hand dw size => List.Sublist.refl dw
  | succ f ih =>
    intro hand dw size
    by_cases h : hand.length < size ∧ dw ≠ []
    · simp only [drawFuel]
      rw [dif_pos h]
      exact (ih _ _ _).trans (List.dropLast_sublist dw)
    · simp only [drawFuel]
      rw [dif_neg h]

/-- The deck left by a draw is a sublist of the original deck. -/
theorem draw_deck_sublist (hand dw : List Val) (size : Nat) :
    List.Sublist (draw hand dw size).2 dw :=
  drawFuel_deck_sublist _ hand dw size

/-- A draw removes at most `size - |hand|` cards from the deck (any
fuel). -/
theorem drawFuel_deck_length (f : Nat) : ∀ (hand dw : List Val) (size : Nat),
    dw.length ≤ (drawFuel f hand dw size).2.length + (size - hand.length) := by
  induction f with
  | zero => exact fun hand dw size => Nat.le_add_right _ _
  | succ f ih =>
    intro hand dw size
    by_cases h : hand.length < size ∧ dw ≠ []
    · simp only [drawFuel]
      rw [dif_pos h]
      have hlen : dw.length = dw.dropLast.length + 1 := by
        have h1 := dw.length_dropLast
        have hpos : 0 < dw.length := List.length_pos.mpr h.2
        omega
      have ih2 := ih (hand ++ [dw.getLast h.2]) dw.dropLast size
      simp only [List.length_append, List.length_singleton] at ih2
      omega
    · simp only [drawFuel]
      rw [dif_neg h]
      exact Nat.le_add_right _ _

/-- A draw removes at most `size - |hand|` cards from the deck. -/
theorem draw_deck_length (hand dw : List Val) (size : Nat) :
    dw.length ≤ (draw hand dw size).2.length + (size - hand.length) :=
  drawFuel_deck_length _ hand dw size

/-- On a duplicate-free deck, every freshly drawn card is gone from the
remaining deck (any fuel). -/
theorem drawFuel_fresh_not_in_deck (f : Nat) :
    ∀ (hand dw : List Val) (size : Nat), dw.Nodup → ∀ c : Val,
      c ∈ (drawFuel f hand dw size).1 → c ∉ hand →
      c ∉ (drawFuel f hand dw size).2 := by
  induction f with
  | zero =>
    intro hand dw size hnd c hc hh
    exact absurd hc hh
  | succ f ih =>
    intro hand dw size hnd c hc hh
    by_cases h : hand.length < size ∧ dw ≠ []
    · simp only [drawFuel] at hc ⊢
      rw [dif_pos h] at hc ⊢
      by_cases he : c = dw.getLast h.2
      · subst he
        intro hmem
        have hsub := drawFuel_deck_sublist f (hand ++ [dw.getLast h.2])
          dw.dropLast size
        have hin : dw.getLast h.2 ∈ dw.dropLast := hsub.subset hmem
        have hsplit : dw.dropLast ++ [dw.getLast h.2] = dw :=
          List.dropLast_append_getLast h.2
        rw [← hsplit] at hnd
        exact (List.disjoint_of_nodup_append hnd) hin (by simp)
      · exact ih _ _ _ (hnd.sublist (List.dropLast_sublist dw)) c hc
          (by simp [hh, he])
    · simp only [drawFuel] at hc ⊢
      rw [dif_neg h] at hc ⊢
      exact absurd hc hh

/-- On a duplicate-free deck, every freshly drawn card is gone from the
remaining deck. -/
theorem draw_fresh_not_in_deck (hand dw : List Val) (size : Nat)
    (hnd : dw.Nodup) (c : Val) (hc : c ∈ (draw hand dw size).1)
    (hh : c ∉ hand) : c ∉ (draw hand dw size).2 :=
  drawFuel_fresh_not_in_deck _ hand dw size hnd c hc hh
/-- `prepRel` is reflexive. -/
theorem prepRel_refl (a : String × PlayerRec) : prepRel a a :=
  ⟨rfl, rfl, rfl, [], by simp⟩

/-- Every roster is `prepRel`-related to itself. -/
theorem forall2_prepRel_refl (ps : List (String × PlayerRec)) :
    List.Forall₂ prepRel ps ps :=
  List.forall₂_same.mpr (fun a _ => prepRel_refl a)

/-- The drawing loop relates the old and new rosters pointwise: names,
points and states are unchanged and hands only grow. -/
theorem prepLoop_rel (maxP : Nat) (ps : List (String × PlayerRec))
    (dw : List Val) : List.Forall₂ prepRel ps (prepLoop maxP ps dw).1 := by
  induction ps generalizing dw with
  | nil => exact List.Forall₂.nil
  | cons hd tl ih =>
    obtain ⟨n, p⟩ := hd
    by_cases h : p.points = maxP
    · simp only [prepLoop, if_pos h]
      exact forall2_prepRel_refl _
    · simp only [prepLoop, if_neg h]
      refine List.Forall₂.cons ?_ (ih _)
      obtain ⟨t, ht⟩ := draw_append p.hand dw DEFAULT_HAND_SIZE
      exact ⟨rfl, rfl, rfl, t, ht⟩

/-- The drawing loop takes at most ten cards per player off the deck. -/
theorem prepLoop_deck_length (maxP : Nat) (ps : List (String × PlayerRec))
    (dw : List Val) :
    dw.length ≤ (prepLoop maxP ps dw).2.1.length + 10 * ps.length := by
  induction ps generalizing dw with
  | nil => simp [prepLoop]
  | cons hd tl ih =>
    obtain ⟨n, p⟩ := hd
    by_cases h : p.points = maxP
    · simp only [prepLoop, if_pos h]
      simp only [List.length_cons]
      omega
    · simp only [prepLoop, if_neg h]
      have h1 := draw_deck_length p.hand dw DEFAULT_HAND_SIZE
      have h2 := ih (draw p.hand dw DEFAULT_HAND_SIZE).2
      simp only [List.length_cons, DEFAULT_HAND_SIZE] at h1 h2 ⊢
      omega

/-- With a player at the threshold the loop reports the game over. -/
theorem prepLoop_ended_of_winner (maxP : Nat) (ps : List (String × PlayerRec))
    (dw : List Val) (hw : ∃ np ∈ ps, np.2.points = maxP) :
    (prepLoop maxP ps dw).2.2 = true := by
  induction ps generalizing dw with
  | nil => simp at hw
  | cons hd tl ih =>
    obtain ⟨n, p⟩ := hd
    by_cases h : p.points = maxP
    · simp [prepLoop, if_pos h]
    · simp only [prepLoop, if_neg h]
      rcases hw with ⟨np, hmem, hpts⟩
      rcases List.mem_cons.mp hmem with he | hm
      · subst he
        exact absurd hpts h
      · exact ih _ ⟨np, hm, hpts⟩

/-- With no player at the threshold the loop completes normally. -/
theorem prepLoop_not_ended (maxP : Nat) (ps : List (String × PlayerRec))
    (dw : List Val) (hw : ∀ np ∈ ps, np.2.points ≠ maxP) :
    (prepLoop maxP ps dw).2.2 = false := by
  induction ps generalizing dw with
  | nil => simp [prepLoop]
  | cons hd tl ih =>
    obtain ⟨n, p⟩ := hd
    have h : p.points ≠ maxP := hw (n, p) (List.mem_cons_self _ _)
    simp only [prepLoop, if_neg h]
    exact ih _ (fun np hm => hw np (List.mem_cons_of_mem _ hm))

/-- The loop stops at the first player at the threshold: the players
from that position on are returned untouched. -/
theorem prepLoop_first_winner (maxP : Nat) (ps : List (String × PlayerRec))
    (dw : List Val) (hw : ∃ np ∈ ps, np.2.points = maxP) :
    ∃ k, k < ps.length ∧
      (∀ np ∈ ps.take k, np.2.points ≠ maxP) ∧
      (∃ w rest, ps.drop k = w :: rest ∧ w.2.points = maxP) ∧
      (prepLoop maxP ps dw).1.drop k = ps.drop k := by
  induction ps generalizing dw with
  | nil => simp at hw
  | cons hd tl ih =>
    obtain ⟨n, p⟩ := hd
    by_cases h : p.points = maxP
    · refine ⟨0, by simp, by simp, ⟨(n, p), tl, by simp, h⟩, ?_⟩
      simp [prepLoop, if_pos h]
    · have hw2 : ∃ np ∈ tl, np.2.points = maxP := by
        rcases hw with ⟨np, hmem, hpts⟩
        rcases List.mem_cons.mp hmem with he | hm
        · subst he
          exact absurd hpts h
        · exact ⟨np, hm, hpts⟩
      obtain ⟨k, hk, htake, hdropw, hpres⟩ :=
        ih (draw p.hand dw DEFAULT_HAND_SIZE).2 hw2
      refine ⟨k + 1, by simpa using Nat.succ_lt_succ hk, ?_, ?_, ?_⟩
      · intro np hmem
        rw [List.take_succ_cons] at hmem
        rcases List.mem_cons.mp hmem with he | hm
        · subst he
          exact h
        · exact htake np hm
      · simpa using hdropw
      · simp only [prepLoop, if_neg h, List.drop_succ_cons]
        exact hpres

/-- Keys are unchanged along the drawing relation. -/
theorem forall2_prepRel_keys (ps ps2 : List (String × PlayerRec))
    (h : List.Forall₂ prepRel ps ps2) : ps2.map Prod.fst = ps.map Prod.fst := by
  induction h with
  | nil => rfl
  | cons hab htl ih =>
    simp only [List.map_cons, ih, List.cons.injEq, and_true]
    exact hab.1

/-- Lookup along the drawing relation: points and state agree and the
hand is only extended. -/
theorem forall2_prepRel_lookup (ps ps2 : List (String × PlayerRec))
    (h : List.Forall₂ prepRel ps ps2) (n : String) (p : PlayerRec)
    (hl : lookupP ps n = some p) :
    ∃ p2, lookupP ps2 n = some p2 ∧ p2.points = p.points ∧
      p2.state = p.state ∧ ∃ t, p2.hand = p.hand ++ t := by
  induction h with
  | nil => cases hl
  | @cons a b la lb hab htl ih =>
    obtain ⟨k, pa⟩ := a
    obtain ⟨k2, pb⟩ := b
    obtain ⟨hk, hpts, hst, t, ht⟩ := hab
    have hk2 : k2 = k := hk
    have hpts2 : pb.points = pa.points := hpts
    have hst2 : pb.state = pa.state := hst
    have ht2 : pb.hand = pa.hand ++ t := ht
    subst hk2
    by_cases he : k2 = n
    · subst he
      simp only [lookupP, if_pos rfl] at hl ⊢
      cases hl
      exact ⟨pb, rfl, hpts2, hst2, t, ht2⟩
    · simp only [lookupP, if_neg he] at hl ⊢
      exact ih hl

/-- The points projection is invariant along the drawing relation. -/
theorem forall2_prepRel_points_lookup (ps ps2 : List (String × PlayerRec))
    (h : List.Forall₂ prepRel ps ps2) (n : String) :
    (lookupP ps2 n).map (fun p => p.points) =
      (lookupP ps n).map (fun p => p.points) := by
  cases hl : lookupP ps n with
  | some p =>
    obtain ⟨p2, hl2, hpts, _, _⟩ := forall2_prepRel_lookup ps ps2 h n p hl
    rw [hl2]
    simp [hpts]
  | none =>
    have hk := forall2_prepRel_keys ps ps2 h
    have : n ∉ ps.map Prod.fst := by
      intro hm
      have := (lookupP_isSome_iff ps n).mpr hm
      rw [hl] at this
      cases this
    rw [lookupP_eq_none_of_not_mem ps2 n (by rw [hk]; exact this)]

/-- Setting every player state maps each looked-up record. -/
theorem lookupP_setStateAll (st : PState) (ps : List (String × PlayerRec))
    (n : String) :
    lookupP (setStateAll st ps) n =
      (lookupP ps n).map (fun p => { p with state := st }) := by
  induction ps with
  | nil => rfl
  | cons hd tl ih =>
    obtain ⟨k, p⟩ := hd
    by_cases h : k = n
    · simp [setStateAll, lookupP, h]
    · simp only [setStateAll, List.map_cons, lookupP, if_neg h]
      simpa [setStateAll] using ih

/-- Setting every player state keeps the key list. -/
theorem setStateAll_keys (st : PState) (ps : List (String × PlayerRec)) :
    (setStateAll st ps).map Prod.fst = ps.map Prod.fst := by
  simp [setStateAll, List.map_map]

/-- A points-preserving update keeps the (name, points) projection. -/
theorem pointsKeys_updateP (ps : List (String × PlayerRec)) (n : String)
    (f : PlayerRec → PlayerRec) (hf : ∀ p, (f p).points = p.points) :
    pointsKeys (updateP ps n f) = pointsKeys ps := by
  induction ps with
  | nil => rfl
  | cons hd tl ih =>
    obtain ⟨k, p⟩ := hd
    by_cases h : k = n
    · simp [updateP, pointsKeys, h, hf]
    · simp only [updateP, if_neg h, pointsKeys, List.map_cons]
      simpa [pointsKeys] using ih

/-- Returning submissions to hands never changes names or points. -/
theorem pointsKeys_foldl_giveBack (cs : List (String × Val))
    (ps : List (String × PlayerRec)) :
    pointsKeys (cs.foldl giveBack ps) = pointsKeys ps := by
  induction cs generalizing ps with
  | nil => rfl
  | cons c cstl ih =>
    rw [List.foldl_cons, ih]
    exact pointsKeys_updateP ps c.1 _ (fun p => rfl)

/-- The key list is the first projection of the points projection. -/
theorem keys_eq_pointsKeys_fst (ps : List (String × PlayerRec)) :
    ps.map Prod.fst = (pointsKeys ps).map Prod.fst := by
  simp [pointsKeys, List.map_map]

/-- Returning submissions to hands keeps the key list. -/
theorem keys_foldl_giveBack (cs : List (String × Val))
    (ps : List (String × PlayerRec)) :
    (cs.foldl giveBack ps).map Prod.fst = ps.map Prod.fst := by
  rw [keys_eq_pointsKeys_fst, keys_eq_pointsKeys_fst ps,
    pointsKeys_foldl_giveBack]

/-- A single hand give-back preserves any present hand card. -/
theorem lookupP_giveBack_mono (ps : List (String × PlayerRec))
    (c : String × Val) (n : String) (p : PlayerRec) (v : Val)
    (hl : lookupP ps n = some p) (hv : v ∈ p.hand) :
    ∃ p2, lookupP (giveBack ps c) n = some p2 ∧ v ∈ p2.hand := by
  by_cases h : n = c.1
  · subst h
    refine ⟨{ p with hand := p.hand ++ [c.2] }, ?_, by simp [hv]⟩
    rw [giveBack, lookupP_updateP_self, hl]
    rfl
  · exact ⟨p, by rw [giveBack, lookupP_updateP_ne _ _ _ _ h, hl], hv⟩

/-- Hand cards survive the whole give-back fold. -/
theorem foldl_giveBack_mono (cs : List (String × Val))
    (ps : List (String × PlayerRec)) (n : String) (p : PlayerRec) (v : Val)
    (hl : lookupP ps n = some p) (hv : v ∈ p.hand) :
    ∃ p2, lookupP (cs.foldl giveBack ps) n = some p2 ∧ v ∈ p2.hand := by
  induction cs generalizing ps p with
  | nil => exact ⟨p, hl, hv⟩
  | cons c cstl ih =>
    rw [List.foldl_cons]
    obtain ⟨p2, hl2, hv2⟩ := lookupP_giveBack_mono ps c n p v hl hv
    exact ih (giveBack ps c) p2 hl2 hv2

/-- Each submission in the list ends up in its owner's hand after the
give-back fold (the owner must be registered). -/
theorem foldl_giveBack_mem (cs : List (String × Val))
    (ps : List (String × PlayerRec)) (c : String × Val) (hc : c ∈ cs)
    (hs : (lookupP ps c.1).isSome) :
    ∃ p2, lookupP (cs.foldl giveBack ps) c.1 = some p2 ∧ c.2 ∈ p2.hand := by
  induction cs generalizing ps with
  | nil => cases hc
  | cons d ds ih =>
    rw [List.foldl_cons]
    rcases List.mem_cons.mp hc with he | hm
    · subst he
      obtain ⟨p, hp⟩ := Option.isSome_iff_exists.mp hs
      have hl2 : lookupP (giveBack ps c) c.1 = some { p with hand := p.hand ++ [c.2] } := by
        rw [giveBack, lookupP_updateP_self, hp]
        rfl
      exact foldl_giveBack_mono ds (giveBack ps c) c.1 _ c.2 hl2 (by simp)
    · have hs2 : (lookupP (giveBack ps d) c.1).isSome := by
        rw [lookupP_isSome_iff] at hs ⊢
        rw [giveBack, updateP_keys]
        exact hs
      exact ih (giveBack ps d) hm hs2


/-- Updating a player record keeps the roster size. -/
theorem updateP_length (ps : List (String × PlayerRec)) (n : String)
    (f : PlayerRec → PlayerRec) : (updateP ps n f).length = ps.length := by
  have h := congrArg List.length (updateP_keys ps n f)
  simpa using h

/-- Setting every state keeps the roster size. -/
theorem setStateAll_length (st : PState) (ps : List (String × PlayerRec)) :
    (setStateAll st ps).length = ps.length := by
  simp [setStateAll]

/-- Lookup through the state assignments of a fresh round (everyone to
choosing, the picker back to waiting): points and hand are untouched. -/
theorem lookupP_prepStates (ps : List (String × PlayerRec)) (pk n : String)
    (p : PlayerRec) (hl : lookupP ps n = some p) :
    ∃ p2, lookupP (updateP (setStateAll .choosing ps) pk
        (fun q => { q with state := .waiting })) n = some p2 ∧
      p2.points = p.points ∧ p2.hand = p.hand := by
  by_cases hn : n = pk
  · subst hn
    rw [lookupP_updateP_self, lookupP_setStateAll, hl]
    exact ⟨_, rfl, rfl, rfl⟩
  · rw [lookupP_updateP_ne _ _ _ _ hn, lookupP_setStateAll, hl]
    exact ⟨_, rfl, rfl, rfl⟩

/-- The state assignments of a fresh round register no new names. -/
theorem lookupP_prepStates_none (ps : List (String × PlayerRec))
    (pk n : String) (h : n ∉ ps.map Prod.fst) :
    lookupP (updateP (setStateAll .choosing ps) pk
      (fun q => { q with state := .waiting })) n = none := by
  apply lookupP_eq_none_of_not_mem
  rw [updateP_keys, setStateAll_keys]
  exact h

/-- The final stage of round preparation either starts a fresh round
(waiting for choices, submissions cleared) or ends the game (submissions
kept); the roster size never changes. -/
theorem prepFinish_ok_cases (g2 : Game) (ended : Bool) (gF : Game)
    (h : prepFinish g2 ended = .ok gF) :
    (gF.state = .waitingChoices ∧ gF.choices = [] ∧
      gF.players.length = g2.players.length ∧ gF.deckB = g2.deckB.dropLast) ∨
    (gF.state = .over ∧ gF.choices = g2.choices ∧
      gF.players = g2.players ∧ gF.deckB = g2.deckB) := by
  unfold prepFinish at h
  split at h
  · simp only [Except.ok.injEq] at h
    subst h
    exact Or.inr ⟨rfl, rfl, rfl, rfl⟩
  · split at h
    · simp only [Except.ok.injEq] at h
      subst h
      exact Or.inr ⟨rfl, rfl, rfl, rfl⟩
    · split at h
      · simp only [Except.ok.injEq] at h
        subst h
        refine Or.inl ⟨rfl, rfl, ?_, rfl⟩
        simp [updateP_length, setStateAll_length]
      · cases h

/-- Round preparation, when it succeeds, leaves the game waiting for
choices or over. -/
theorem prepareRound_ok_state (shW : List Val → List Val)
    (shB : List String → List String) (g gF : Game)
    (h : prepareRound shW shB g = .ok gF) :
    gF.state = .waitingChoices ∨ gF.state = .over := by
  rcases prepFinish_ok_cases _ _ _ h with h1 | h1
  · exact Or.inl h1.1
  · exact Or.inr h1.1

/-- The shuffle stage never touches the roster. -/
theorem prepShuffle_players (shW : List Val → List Val)
    (shB : List String → List String) (g : Game) :
    (prepShuffle shW shB g).players = g.players := by
  unfold prepShuffle
  split <;> rfl

/-- Outside the starting state the shuffle stage is the identity. -/
theorem prepShuffle_of_not_starting (shW : List Val → List Val)
    (shB : List String → List String) (g : Game) (h : g.state ≠ .starting) :
    prepShuffle shW shB g = g := by
  unfold prepShuffle
  rw [if_neg h]

/-- Lookup through the final preparation stage: points and hands are
untouched, for success and failure alike. -/
theorem prepFinish_lookup (g2 : Game) (ended : Bool) (n : String)
    (p : PlayerRec) (hl : lookupP g2.players n = some p) :
    ∃ p2, lookupP (resState (prepFinish g2 ended)).players n = some p2 ∧
      p2.points = p.points ∧ p2.hand = p.hand := by
  unfold prepFinish
  split
  · exact ⟨p, hl, rfl, rfl⟩
  · split
    · exact ⟨p, hl, rfl, rfl⟩
    · split
      · exact lookupP_prepStates g2.players _ n p hl
      · exact ⟨p, hl, rfl, rfl⟩

/-- The final preparation stage registers no new names. -/
theorem prepFinish_lookup_none (g2 : Game) (ended : Bool) (n : String)
    (h : n ∉ g2.players.map Prod.fst) :
    lookupP (resState (prepFinish g2 ended)).players n = none := by
  unfold prepFinish
  split
  · exact lookupP_eq_none_of_not_mem _ _ h
  · split
    · exact lookupP_eq_none_of_not_mem _ _ h
    · split
      · exact lookupP_prepStates_none g2.players _ n h
      · exact lookupP_eq_none_of_not_mem _ _ h

/-- Round preparation never changes any player's points, whether it
succeeds or raises. -/
theorem prepareRound_pointsOf (shW : List Val → List Val)
    (shB : List String → List String) (g : Game) (n : String) :
    pointsOf (resState (prepareRound shW shB g)) n = pointsOf g n := by
  have hps := prepShuffle_players shW shB g
  set gs := prepShuffle shW shB g with hgs
  set L := prepLoop gs.maxPoints gs.players gs.deckW with hL
  have hgoal : prepareRound shW shB g =
      prepFinish { gs with players := L.1, deckW := L.2.1 } L.2.2 := rfl
  rw [hgoal]
  have hrel := prepLoop_rel gs.maxPoints gs.players gs.deckW
  rw [← hL] at hrel
  simp only [pointsOf]
  cases hl : lookupP g.players n with
  | some p =>
    have hl2 : lookupP gs.players n = some p := by rw [hps]; exact hl
    obtain ⟨p2, hp2, hpts2, _, _⟩ := forall2_prepRel_lookup _ _ hrel n p hl2
    obtain ⟨p3, hp3, hpts3, _⟩ :=
      prepFinish_lookup { gs with players := L.1, deckW := L.2.1 } L.2.2 n p2 hp2
    rw [hp3]
    simp [hpts3, hpts2]
  | none =>
    have hnm : n ∉ gs.players.map Prod.fst := by
      rw [hps]
      intro hm
      have hs := (lookupP_isSome_iff g.players n).mpr hm
      rw [hl] at hs
      cases hs
    have hnm2 : n ∉ L.1.map Prod.fst := by
      rw [forall2_prepRel_keys _ _ hrel]
      exact hnm
    rw [prepFinish_lookup_none { gs with players := L.1, deckW := L.2.1 }
      L.2.2 n hnm2]

/-- The final preparation stage keeps the key list. -/
theorem prepFinish_keys (g2 : Game) (ended : Bool) :
    (resState (prepFinish g2 ended)).players.map Prod.fst =
      g2.players.map Prod.fst := by
  unfold prepFinish
  split
  · rfl
  · split
    · rfl
    · split
      · simp only [resState]
        rw [updateP_keys, setStateAll_keys]
      · rfl

/-- Round preparation keeps the key list, for success and failure alike. -/
theorem prepareRound_keys (shW : List Val → List Val)
    (shB : List String → List String) (g : Game) :
    (resState (prepareRound shW shB g)).players.map Prod.fst =
      g.players.map Prod.fst := by
  have hps := prepShuffle_players shW shB g
  set gs := prepShuffle shW shB g with hgs
  set L := prepLoop gs.maxPoints gs.players gs.deckW with hL
  have hgoal : prepareRound shW shB g =
      prepFinish { gs with players := L.1, deckW := L.2.1 } L.2.2 := rfl
  rw [hgoal, prepFinish_keys { gs with players := L.1, deckW := L.2.1 } L.2.2]
  have hrel := prepLoop_rel gs.maxPoints gs.players gs.deckW
  rw [← hL] at hrel
  have hk := forall2_prepRel_keys _ _ hrel
  simp only at hk ⊢
  rw [hk, hps]

/-- Lookup through a successful round preparation: points are unchanged
and the hand is only extended (by the re-draw). -/
theorem prepareRound_ok_lookup (shW : List Val → List Val)
    (shB : List String → List String) (g gF : Game)
    (h : prepareRound shW shB g = .ok gF) (n : String) (p : PlayerRec)
    (hl : lookupP g.players n = some p) :
    ∃ p2, lookupP gF.players n = some p2 ∧ p2.points = p.points ∧
      ∃ t, p2.hand = p.hand ++ t := by
  have hps := prepShuffle_players shW shB g
  set gs := prepShuffle shW shB g with hgs
  set L := prepLoop gs.maxPoints gs.players gs.deckW with hL
  have hgoal : prepareRound shW shB g =
      prepFinish { gs with players := L.1, deckW := L.2.1 } L.2.2 := rfl
  rw [hgoal] at h
  have hrel := prepLoop_rel gs.maxPoints gs.players gs.deckW
  rw [← hL] at hrel
  have hl2 : lookupP gs.players n = some p := by rw [hps]; exact hl
  obtain ⟨p2, hp2, hpts2, hst2, t, ht2⟩ := forall2_prepRel_lookup _ _ hrel n p hl2
  obtain ⟨p3, hp3, hpts3, hh3⟩ :=
    prepFinish_lookup { gs with players := L.1, deckW := L.2.1 } L.2.2 n p2 hp2
  rw [h] at hp3
  exact ⟨p3, hp3, by rw [hpts3, hpts2], t, by rw [hh3, ht2]⟩

/-- The shuffle stage keeps the win threshold. -/
theorem prepShuffle_maxPoints (shW : List Val → List Val)
    (shB : List String → List String) (g : Game) :
    (prepShuffle shW shB g).maxPoints = g.maxPoints := by
  unfold prepShuffle
  split <;> rfl

/-- With live decks and a non-empty deque, the final stage starts a
fresh round: picker from the right end of the deque, submissions
cleared, prompt dealt from the end of the black deck. -/
theorem prepFinish_fresh (g2 : Game) (hW : g2.deckW.length ≠ 0)
    (hB : g2.deckB ≠ []) (hq : g2.playDeque ≠ []) :
    prepFinish g2 false = .ok { g2 with
      playDeque := g2.playDeque.getLast hq :: g2.playDeque.dropLast,
      picker := some (g2.playDeque.getLast hq),
      choices := [],
      players := updateP (setStateAll .choosing g2.players)
        (g2.playDeque.getLast hq) (fun q => { q with state := .waiting }),
      blackCard := some (g2.deckB.getLast hB),
      deckB := g2.deckB.dropLast,
      requiredCards := if countPS (g2.deckB.getLast hB) = 0 then 1
        else countPS (g2.deckB.getLast hB),
      state := .waitingChoices } := by
  have hBlen : g2.deckB.length ≠ 0 := by
    intro h0
    exact hB (List.length_eq_zero.mp h0)
  unfold prepFinish
  rw [if_neg (by simp), if_neg (by simp [hW, hBlen])]
  rw [List.getLast?_eq_getLast g2.playDeque hq,
    List.getLast?_eq_getLast g2.deckB hB]

/-- Round preparation succeeds into a fresh round when no player is at
the threshold, the white deck can cover every redraw, the black deck is
live and the deque is populated; the new picker comes from the deque. -/
theorem prepareRound_fresh (shW : List Val → List Val)
    (shB : List String → List String) (g : Game)
    (hst : g.state ≠ .starting)
    (hw : ∀ np ∈ g.players, np.2.points ≠ g.maxPoints)
    (hdW : 10 * g.players.length < g.deckW.length)
    (hdB : g.deckB ≠ []) (hdq : g.playDeque ≠ []) :
    ∃ gF pk, prepareRound shW shB g = .ok gF ∧
      gF.state = .waitingChoices ∧ gF.picker = some pk ∧
      pk ∈ g.playDeque ∧ gF.choices = [] ∧
      gF.blackCard = some (g.deckB.getLast hdB) := by
  have hid := prepShuffle_of_not_starting shW shB g hst
  have hgoal : prepareRound shW shB g =
      prepFinish { prepShuffle shW shB g with
        players := (prepLoop (prepShuffle shW shB g).maxPoints
          (prepShuffle shW shB g).players (prepShuffle shW shB g).deckW).1,
        deckW := (prepLoop (prepShuffle shW shB g).maxPoints
          (prepShuffle shW shB g).players (prepShuffle shW shB g).deckW).2.1 }
        (prepLoop (prepShuffle shW shB g).maxPoints
          (prepShuffle shW shB g).players (prepShuffle shW shB g).deckW).2.2 := rfl
  rw [hid] at hgoal
  have hend : (prepLoop g.maxPoints g.players g.deckW).2.2 = false :=
    prepLoop_not_ended _ _ _ hw
  rw [hend] at hgoal
  have hlen := prepLoop_deck_length g.maxPoints g.players g.deckW
  have hW2 : (prepLoop g.maxPoints g.players g.deckW).2.1.length ≠ 0 := by
    omega
  have hfresh := prepFinish_fresh
    { g with
      players := (prepLoop g.maxPoints g.players g.deckW).1,
      deckW := (prepLoop g.maxPoints g.players g.deckW).2.1 }
    (by exact hW2) (by exact hdB) (by exact hdq)
  rw [hgoal]
  exact ⟨_, g.playDeque.getLast hdq, hfresh, rfl, rfl,
    List.getLast_mem hdq, rfl, rfl⟩

/-- Scanning a list from position `i + 1` never inspects the head (any
fuel). -/
theorem exciseFuel_cons (name : String) (p : String × Val) (f : Nat) :
    ∀ (i : Nat) (cs : List (String × Val)) (acc : List Val),
      exciseFuel name f (i + 1) (p :: cs) acc =
        ((p :: (exciseFuel name f i cs acc).1),
          (exciseFuel name f i cs acc).2) := by
  induction f with
  | zero => exact fun i cs acc => rfl
  | succ f ih =>
    intro i cs acc
    by_cases h : i < cs.length
    · have h2 : i + 1 < (p :: cs).length := by simpa using Nat.succ_lt_succ h
      simp only [exciseFuel]
      rw [dif_pos h2, dif_pos h]
      have hg : (p :: cs).get ⟨i + 1, h2⟩ = cs.get ⟨i, h⟩ := rfl
      simp only [hg]
      by_cases hc : (cs.get ⟨i, h⟩).1 = name
      · rw [if_pos hc, if_pos hc]
        have her : (p :: cs).eraseIdx (i + 1) = p :: cs.eraseIdx i := rfl
        rw [her, ih]
      · rw [if_neg hc, if_neg hc]
        exact ih _ _ _
    · have h2 : ¬(i + 1 < (p :: cs).length) := by
        simp only [List.length_cons]
        omega
      simp only [exciseFuel]
      rw [dif_neg h2, dif_neg h]

/-- Scanning a list from position `i + 1` never inspects the head. -/
theorem exciseLoop_cons (name : String) (p : String × Val) (i : Nat)
    (cs : List (String × Val)) (acc : List Val) :
    exciseLoop name (i + 1) (p :: cs) acc =
      ((p :: (exciseLoop name i cs acc).1), (exciseLoop name i cs acc).2) := by
  unfold exciseLoop
  have hlen : (p :: cs).length - (i + 1) = cs.length - i := by
    simp only [List.length_cons]
    omega
  rw [hlen]
  exact exciseFuel_cons name p (cs.length - i) i cs acc

/-- A scan over submissions that never mentions the name changes
nothing (any fuel). -/
theorem exciseFuel_clean (name : String) (f : Nat) :
    ∀ (i : Nat) (cs : List (String × Val)) (acc : List Val),
      (∀ c ∈ cs, c.1 ≠ name) → exciseFuel name f i cs acc = (cs, acc) := by
  induction f with
  | zero => exact fun i cs acc _ => rfl
  | succ f ih =>
    intro i cs acc h
    by_cases hi : i < cs.length
    · simp only [exciseFuel]
      rw [dif_pos hi, if_neg (h _ (cs.get_mem i hi))]
      exact ih _ _ _ h
    · simp only [exciseFuel]
      rw [dif_neg hi]

/-- A scan over submissions that never mentions the name changes
nothing. -/
theorem exciseLoop_clean (name : String) (i : Nat)
    (cs : List (String × Val)) (acc : List Val)
    (h : ∀ c ∈ cs, c.1 ≠ name) :
    exciseLoop name i cs acc = (cs, acc) :=
  exciseFuel_clean name _ i cs acc h

/-- Excising a single pending submission: the matching entry is removed
from the submissions and appended to the accumulator as the
(player, choice) pair; everything else is kept. -/
theorem exciseLoop_single (name : String) (pre post : List (String × Val))
    (e : String × Val) (hpre : ∀ c ∈ pre, c.1 ≠ name)
    (hpost : ∀ c ∈ post, c.1 ≠ name) (he : e.1 = name) :
    exciseLoop name 0 (pre ++ e :: post) [] =
      (pre ++ post, [Val.pr (.s e.1) e.2]) := by
  induction pre with
  | nil =>
    simp only [List.nil_append]
    unfold exciseLoop
    have hf : (e :: post).length - 0 = post.length + 1 := by simp
    rw [hf]
    simp only [exciseFuel]
    have h0 : 0 < (e :: post).length := by simp
    rw [dif_pos h0]
    have hg : (e :: post).get ⟨0, h0⟩ = e := rfl
    simp only [hg]
    rw [if_pos he]
    have her : (e :: post).eraseIdx 0 = post := rfl
    rw [her]
    rw [exciseFuel_clean name post.length 1 post _ hpost]
    simp
  | cons q pre2 ih =>
    have hq : q.1 ≠ name := hpre q (List.mem_cons_self _ _)
    have hpre2 : ∀ c ∈ pre2, c.1 ≠ name :=
      fun c hc => hpre c (List.mem_cons_of_mem _ hc)
    simp only [List.cons_append]
    unfold exciseLoop
    have hf : (q :: (pre2 ++ e :: post)).length - 0 =
        (pre2 ++ e :: post).length + 1 := by simp
    rw [hf]
    simp only [exciseFuel]
    have h0 : 0 < (q :: (pre2 ++ e :: post)).length := by simp
    rw [dif_pos h0]
    have hg : (q :: (pre2 ++ e :: post)).get ⟨0, h0⟩ = q := rfl
    simp only [hg]
    rw [if_neg hq]
    rw [show (0 : Nat) + 1 = 0 + 1 from rfl]
    rw [exciseFuel_cons name q (pre2 ++ e :: post).length 0 (pre2 ++ e :: post) []]
    have hrest : exciseFuel name (pre2 ++ e :: post).length 0 (pre2 ++ e :: post) [] =
        exciseLoop name 0 (pre2 ++ e :: post) [] := by
      unfold exciseLoop
      simp
    rw [hrest, ih hpre2]

/-- The comment-filter loop never increases the multiplicity of a line
(any fuel). -/
theorem filterFuel_count_le (f : Nat) : ∀ (i : Nat) (cs : List String)
    (s : String), (filterFuel f i cs).count s ≤ cs.count s := by
  induction f with
  | zero => exact fun i cs s => le_refl _
  | succ f ih =>
    intro i cs s
    by_cases h : i < cs.length
    · simp only [filterFuel]
      rw [dif_pos h]
      by_cases hc : isComment (cs.get ⟨i, h⟩) = true
      · rw [if_pos hc]
        exact le_trans (ih _ _ _) ((List.erase_sublist _ _).count_le s)
      · rw [if_neg hc]
        exact ih _ _ _
    · simp only [filterFuel]
      rw [dif_neg h]

/-- The comment-filter loop never increases the multiplicity of a line. -/
theorem filterLoop_count_le (i : Nat) (cs : List String) (s : String) :
    (filterLoop i cs).count s ≤ cs.count s :=
  filterFuel_count_le _ i cs s

/-- The comment-filter loop keeps every non-comment line with its exact
multiplicity (any fuel): only comment-marked lines are ever removed. -/
theorem filterFuel_count_eq (f : Nat) : ∀ (i : Nat) (cs : List String)
    (s : String), isComment s = false →
      (filterFuel f i cs).count s = cs.count s := by
  induction f with
  | zero => exact fun i cs s _ => rfl
  | succ f ih =>
    intro i cs s hs
    by_cases h : i < cs.length
    · simp only [filterFuel]
      rw [dif_pos h]
      by_cases hc : isComment (cs.get ⟨i, h⟩) = true
      · rw [if_pos hc]
        rw [ih _ _ _ hs]
        apply List.count_erase_of_ne
        intro he
        rw [he] at hs
        rw [hc] at hs
        cases hs
      · rw [if_neg hc]
        exact ih _ _ _ hs
    · simp only [filterFuel]
      rw [dif_neg h]

/-- The comment-filter loop keeps every non-comment line with its exact
multiplicity: only comment-marked lines are ever removed. -/
theorem filterLoop_count_eq (i : Nat) (cs : List String) (s : String)
    (hs : isComment s = false) :
    (filterLoop i cs).count s = cs.count s :=
  filterFuel_count_eq _ i cs s hs
/-- In the game.py variant of `remove_player`, removing a registered
player always raises KeyError: line 241 re-reads the key deleted on
line 240; only the roster deletion has happened when it escapes. -/
theorem gameRemovePlayer_keyError (shW : List Val → List Val)
    (shB : List String → List String)
    (shC : List (String × Val) → List (String × Val)) (g : Game)
    (n : String) (pl : PlayerRec)
    (hnd : (g.players.map Prod.fst).Nodup)
    (hl : lookupP g.players n = some pl) :
    gameRemovePlayer shW shB shC g n =
      .error (.keyError, { g with players := eraseP g.players n }) := by
  unfold gameRemovePlayer
  rw [hl]
  simp only
  rw [show lookupP ({ g with players := eraseP g.players n } : Game).players n
      = none from lookupP_eraseP_self g.players n hnd]

/-- `_prepare_picks` either succeeds or raises AttributeError on a
missing picker. -/
theorem preparePicks_err (shC : List (String × Val) → List (String × Val))
    (g0 : Game) :
    resErr (preparePicks shC g0) = none ∨
      resErr (preparePicks shC g0) = some .attributeError := by
  obtain ⟨mp, ps, cs, sc, st, pi, bc, rq, dq, dw, db⟩ := g0
  cases pi with
  | none => exact Or.inr rfl
  | some pk => exact Or.inl rfl

/-- The final preparation stage either succeeds or raises IndexError. -/
theorem prepFinish_err (g2 : Game) (ended : Bool) :
    resErr (prepFinish g2 ended) = none ∨
      resErr (prepFinish g2 ended) = some .indexError := by
  unfold prepFinish
  split
  · exact Or.inl rfl
  · split
    · exact Or.inl rfl
    · split
      · exact Or.inl rfl
      · exact Or.inr rfl

/-- Round preparation either succeeds or raises IndexError. -/
theorem prepareRound_err (shW : List Val → List Val)
    (shB : List String → List String) (g : Game) :
    resErr (prepareRound shW shB g) = none ∨
      resErr (prepareRound shW shB g) = some .indexError :=
  prepFinish_err (prepDraw (prepShuffle shW shB g)).1
    (prepDraw (prepShuffle shW shB g)).2

/-- The shared removal tail never raises KeyError. -/
theorem removeCore_err (shW : List Val → List Val)
    (shB : List String → List String)
    (shC : List (String × Val) → List (String × Val)) (g0 : Game)
    (name : String) (pl : PlayerRec) :
    resErr (removeCore shW shB shC g0 name pl) ≠ some .keyError := by
  unfold removeCore
  dsimp only
  split
  · intro hk
    cases hk
  · split
    · intro hk
      rcases preparePicks_err shC _ with h | h <;> rw [h] at hk <;> cases hk
    · split
      · split
        · intro hk
          cases hk
        · split
          · intro hk
            rcases prepareRound_err shW shB _ with h | h <;>
              rw [h] at hk <;> cases hk
          · intro hk
            cases hk
      · intro hk
        cases hk

/-- The plugin.py variant of `remove_player` never raises KeyError for a
registered player. -/
theorem pluginRemovePlayer_registered_err (shW : List Val → List Val)
    (shB : List String → List String)
    (shC : List (String × Val) → List (String × Val)) (g : Game)
    (n : String) (pl : PlayerRec) (hl : lookupP g.players n = some pl) :
    resErr (pluginRemovePlayer shW shB shC g n) ≠ some .keyError := by
  unfold pluginRemovePlayer
  rw [hl]
  simp only
  cases hrem : listRemove ({ g with players := eraseP g.players n } : Game).playDeque n with
  | none =>
    simp only [hrem]
    intro hk
    cases hk
  | some dq =>
    simp only [hrem]
    exact removeCore_err shW shB shC _ n pl

/-- C1: the claim says `remove_player(name)` raises the unknown-player
KeyError exactly when no player with that name is registered, and
otherwise succeeds in every state.  In src/game.py the call raises
KeyError for every REGISTERED player too: after `del self.players[name]`
(line 240), line 241 evaluates `self.players[name]` again, so the call
aborts with KeyError, with the roster entry already deleted and the
deque, decks and submissions untouched.  This theorem evaluates that
behaviour: for any registered name the result is KeyError with only the
roster mutated. -/
theorem cahC1_gameRemove_keyerror_on_registered (shW : List Val → List Val)
    (shB : List String → List String)
    (shC : List (String × Val) → List (String × Val)) (g : Game)
    (n : String) (pl : PlayerRec)
    (hnd : (g.players.map Prod.fst).Nodup)
    (hl : lookupP g.players n = some pl) :
    gameRemovePlayer shW shB shC g n =
      .error (.keyError, { g with players := eraseP g.players n }) :=
  gameRemovePlayer_keyError shW shB shC g n pl hnd hl

/-- C1 witness: removing the registered player a from a three-player
starting game raises KeyError with the roster entry deleted. -/
theorem cahC1_witness :
    (demoStart.players.map Prod.fst).Nodup ∧
    gameRemovePlayer id id id demoStart "a" =
      .error (.keyError, { demoStart with players := eraseP demoStart.players "a" }) :=
  ⟨by decide,
    cahC1_gameRemove_keyerror_on_registered id id id demoStart "a" {}
      (by decide) (by decide)⟩

/-- C10 counterexample: on the same three-player starting game with the
same (identity) shuffles, removing the registered player a raises
KeyError in the game.py variant but succeeds in the plugin.py variant,
so the two embedded Game classes are not behaviourally equivalent. -/
theorem cahC10_counterexample :
    resErr (gameRemovePlayer id id id demoStart "a") = some .keyError ∧
    resErr (pluginRemovePlayer id id id demoStart "a") = none ∧
    (some Err.keyError ≠ (none : Option Err)) := by decide

/-- C10 (amended): the two Game classes are textually identical except
for `remove_player` (game.py line 241 vs plugin.py line 589), so
`add_player`, `ready`, `choose` and `pick` coincide; the `remove_player`
variants agree on unregistered names (both KeyError on the untouched
state), but diverge on every registered name: game.py raises KeyError
with the roster entry deleted, while plugin.py never raises KeyError
there. -/
theorem cahC10_remove_divergence (shW : List Val → List Val)
    (shB : List String → List String)
    (shC : List (String × Val) → List (String × Val)) :
    (∀ g n, lookupP g.players n = none →
      gameRemovePlayer shW shB shC g n = .error (.keyError, g) ∧
      pluginRemovePlayer shW shB shC g n = .error (.keyError, g)) ∧
    (∀ g n pl, (g.players.map Prod.fst).Nodup →
      lookupP g.players n = some pl →
      gameRemovePlayer shW shB shC g n =
        .error (.keyError, { g with players := eraseP g.players n }) ∧
      resErr (pluginRemovePlayer shW shB shC g n) ≠ some .keyError) := by
  constructor
  · intro g n h
    constructor
    · unfold gameRemovePlayer
      rw [h]
    · unfold pluginRemovePlayer
      rw [h]
  · intro g n pl hnd hl
    exact ⟨gameRemovePlayer_keyError shW shB shC g n pl hnd hl,
      pluginRemovePlayer_registered_err shW shB shC g n pl hl⟩

/-- C10 witness: the divergence instantiated on a concrete game. -/
theorem cahC10_witness :
    lookupP demoStart.players "a" = some {} ∧
    resErr (pluginRemovePlayer id id id demoStart "a") ≠ some .keyError :=
  ⟨by decide,
    ((cahC10_remove_divergence id id id).2 demoStart "a" {} (by decide)
      (by decide)).2⟩

/-- C9 counterexample: with consecutive comment lines the
remove-while-iterating filter of `_load_deck` skips the second one, so a
comment-marked card survives; and an empty source file does not fail but
yields a deck holding one empty card. -/
theorem cahC9_counterexample :
    loadDeck id (some "#a\n#b\nx") = .ok ["#b", "x"] ∧
    isComment "#b" = true ∧
    loadDeck id (some "") = .ok [""] := ⟨rfl, rfl, rfl⟩

/-- C9 (amended): deck loading fails fatally when the source file is
missing; the filter never removes a non-comment line and never adds
lines (multiplicities are preserved up to the shuffle permutation),
but a comment line immediately following a removed one survives the
scan, and a source with no cards yields a single empty card instead of
failing. -/
theorem cahC9_load_filter (sh : List String → List String)
    (hsh : ∀ l, List.Perm (sh l) l) :
    (loadDeck sh none = .error .ioError) ∧
    (∀ text out, loadDeck sh (some text) = .ok out →
      (∀ s, isComment s = false →
        out.count s = (splitNL (pyStrip text)).count s) ∧
      (∀ s, out.count s ≤ (splitNL (pyStrip text)).count s)) := by
  refine ⟨rfl, ?_⟩
  intro text out h
  simp only [loadDeck, Except.ok.injEq] at h
  subst h
  constructor
  · intro s hs
    rw [(hsh _).count_eq]
    exact filterLoop_count_eq 0 _ s hs
  · intro s
    rw [(hsh _).count_eq]
    exact filterLoop_count_le 0 _ s

/-- C9 witness: the amended load behaviour at the identity shuffle. -/
theorem cahC9_witness :
    (∀ l : List String, List.Perm (id l) l) ∧
    loadDeck id none = .error .ioError :=
  ⟨fun l => List.Perm.refl l,
    (cahC9_load_filter id (fun l => List.Perm.refl l)).1⟩

/-- C5 counterexample: picking submission 0 among three players (the
others tied at zero points) produces the snapshot b, c, a — the tied
players c, a appear in REVERSE roster order (the roster is a, b, c),
not in insertion order as claimed; the game also ends here (empty
response deck), so the end-of-game snapshot shows the same order. -/
theorem cahC5_counterexample :
    (resState (pick id id gC5 "0")).scores.map Prod.fst = ["b", "c", "a"] ∧
    gC5.players.map Prod.fst = ["a", "b", "c"] ∧
    (["b", "c", "a"] ≠ ["b", "a", "c"]) := by decide

/-- C5 (amended): `_tally_scores` sorts ascending by points with a
stable sort and then reverses the WHOLE list, so the snapshot is
descending by points, lists exactly the registered players, and players
with equal points appear in reverse roster order. -/
theorem cahC5_tally_order :
    (∀ ps, List.Pairwise
      (fun x y : String × PlayerRec => y.2.points ≤ x.2.points)
      (tallyScores ps)) ∧
    (∀ ps (a b : String × PlayerRec), List.Sublist [a, b] ps →
      a.2.points = b.2.points → List.Sublist [b, a] (tallyScores ps)) ∧
    (∀ ps, List.Perm (tallyScores ps) ps) := by
  refine ⟨?_, ?_, ?_⟩
  · intro ps
    have hs := List.sorted_insertionSort byPoints ps
    exact List.pairwise_reverse.mpr (hs.imp (fun h => h))
  · intro ps a b hab heq
    have h1 : byPoints a b := le_of_eq (by rw [heq])
    have h2 := List.pair_sublist_insertionSort h1 hab
    have h3 := h2.reverse
    simpa [tallyScores] using h3
  · intro ps
    exact (List.reverse_perm _).trans (List.perm_insertionSort byPoints ps)

/-- C5 witness: two players tied at zero come out in reverse roster
order. -/
theorem cahC5_witness :
    List.Sublist [(("b" : String), ({} : PlayerRec)), ("a", {})]
      (tallyScores [("a", {}), ("b", {})]) :=
  cahC5_tally_order.2.1 [("a", {}), ("b", {})] ("a", {}) ("b", {})
    (List.Sublist.refl _) rfl

/-- C2 counterexample: player b is Choosing and holds the card "x"
exactly once (hand ["x","y"], two cards required); the index list
["0","0"] repeats the index of that singly-held card.  The claim says
this fails with InvalidChoice and mutates nothing; the code instead
records the submission, removes one copy from the hand, and then the
second `hand.remove` raises an uncaught ValueError — a partial
mutation escapes. -/
theorem cahC2_counterexample :
    resErr (playerChoose id gC2 "b" ["0", "0"]) = some .valueError ∧
    (resState (playerChoose id gC2 "b" ["0", "0"])).choices =
      [("b", Val.s "x x")] ∧
    gC2.choices = [] ∧
    handOf (resState (playerChoose id gC2 "b" ["0", "0"])) "b" =
      some [Val.s "y"] ∧
    (Err.valueError ≠ Err.invalidChoice) := by decide

/-- C2 (amended): for a Choosing player, a card-index list containing an
out-of-range or malformed index fails with InvalidChoice before any
mutation (the indices are staged against the current hand first), and —
when the game is awaiting choices — an index list of the wrong length
likewise fails with InvalidChoice before any mutation; but a list that
repeats the index of a singly-held card passes this validation and
instead aborts with an uncaught ValueError after the submission has been
recorded and one copy removed from the hand. -/
theorem cahC2_choose_invalid (shC : List (String × Val) → List (String × Val))
    (g : Game) (n : String) (pl : PlayerRec) (cards : List String)
    (hl : lookupP g.players n = some pl) (hst : pl.state = .choosing) :
    (stageChoices pl.hand cards = none →
      playerChoose shC g n cards = .error (.invalidChoice, g)) ∧
    (∀ staged, g.state = .waitingChoices →
      stageChoices pl.hand cards = some staged →
      staged.length ≠ g.requiredCards →
      playerChoose shC g n cards = .error (.invalidChoice, g)) := by
  constructor
  · intro hstage
    simp [playerChoose, hl, hst, hstage]
  · intro staged hgst hstage hlen
    simp [playerChoose, hl, hst, hstage, gameChoose, hgst, hlen]

/-- C2 witness: an out-of-range index (5 into a 2-card hand) fails
atomically with InvalidChoice. -/
theorem cahC2_witness :
    lookupP gC2.players "b" =
      some ⟨.choosing, 0, [Val.s "x", Val.s "y"]⟩ ∧
    playerChoose id gC2 "b" ["5"] = .error (.invalidChoice, gC2) :=
  ⟨by decide,
    (cahC2_choose_invalid id gC2 "b" ⟨.choosing, 0, [Val.s "x", Val.s "y"]⟩
      ["5"] (by decide) rfl).1 (by decide)⟩

/-- C8 counterexample: in the judging phase, `pick("x")` — a malformed
index — raises an uncaught ValueError from `int()` (the `try` only
catches IndexError), not the InvalidPick the claim requires; the state
is unchanged. -/
theorem cahC8_counterexample :
    resErr (pick id id gC8 "x") = some .valueError ∧
    resState (pick id id gC8 "x") = gC8 ∧
    (Err.valueError ≠ Err.invalidPick) := by decide

/-- C8 (amended): outside WaitingForPick, pick fails with WrongPhase
(InvalidMove) and changes nothing; in WaitingForPick a malformed index
raises an uncaught ValueError (not InvalidPick) and changes nothing; an
index outside the Python range of the submission list raises InvalidPick
and changes nothing; and a valid index awards exactly one point to the
chosen submission's author (no other call path changes points). -/
theorem cahC8_pick (shW : List Val → List Val)
    (shB : List String → List String) (g : Game) (c : String) :
    (g.state ≠ .waitingPick → pick shW shB g c = .error (.invalidMove, g)) ∧
    (g.state = .waitingPick → pyInt c = none →
      pick shW shB g c = .error (.valueError, g)) ∧
    (g.state = .waitingPick → ∀ i, pyInt c = some i →
      pyIndex g.choices i = none →
      pick shW shB g c = .error (.invalidPick, g)) ∧
    (g.state = .waitingPick → ∀ i w, pyInt c = some i →
      pyIndex g.choices i = some w →
      pointsOf (resState (pick shW shB g c)) w.1 =
        (pointsOf g w.1).map (fun x => x + 1)) := by
  refine ⟨?_, ?_, ?_, ?_⟩
  · intro hst
    simp [pick, hst]
  · intro hst hint
    simp [pick, hst, hint]
  · intro hst i hint hidx
    simp [pick, hst, hint, hidx]
  · intro hst i w hint hidx
    have hred : pick shW shB g c = prepareRound shW shB
        { g with
          players := updateP g.players w.1
            (fun p => { p with points := p.points + 1 }),
          scores := tallyScores (updateP g.players w.1
            (fun p => { p with points := p.points + 1 })) } := by
      simp [pick, hst, hint, hidx]
    rw [hred, prepareRound_pointsOf]
    simp only [pointsOf, lookupP_updateP_self]
    cases lookupP g.players w.1 <;> rfl

/-- C8 witness: picking submission 1 in a concrete judging phase bumps
the author c from zero to one point. -/
theorem cahC8_witness :
    gC8.state = .waitingPick ∧
    pointsOf (resState (pick id id gC8 "1")) "c" = some 1 := by
  refine ⟨rfl, ?_⟩
  have h := (cahC8_pick id id gC8 "1").2.2.2 rfl 1 ("c", Val.s "cx")
    (by decide) (by decide)
  rw [h]
  decide

/-- C6 counterexample: two players, a with zero points and an empty
hand, then b already at the threshold; the response deck holds one card.
Round preparation ends the game as claimed, but a — iterated before the
winner — DRAWS the card first, contradicting the claim that no player
draws during an ending preparation call. -/
theorem cahC6_counterexample :
    resErr (prepareRound id id gC6) = none ∧
    (resState (prepareRound id id gC6)).state = .over ∧
    handOf gC6 "a" = some [] ∧
    handOf (resState (prepareRound id id gC6)) "a" = some [Val.s "w1"] := by
  decide

/-- C6 (amended): whenever round preparation runs with some registered
player's points at the win threshold, the game ends in that call (state
Over, scores tallied from the final roster) and no points change; but
the roster is scanned in order and every player BEFORE the first winner
still tops off their hand — only the first winner and the players after
them are untouched. -/
theorem cahC6_end_on_winner (shW : List Val → List Val)
    (shB : List String → List String) (g : Game)
    (hw : ∃ np ∈ g.players, np.2.points = g.maxPoints) :
    ∃ gF, prepareRound shW shB g = .ok gF ∧ gF.state = .over ∧
      gF.scores = tallyScores gF.players ∧
      (∀ n, pointsOf gF n = pointsOf g n) ∧
      ∃ k, k < g.players.length ∧
        (∀ np ∈ g.players.take k, np.2.points ≠ g.maxPoints) ∧
        (∃ w rest, g.players.drop k = w :: rest ∧
          w.2.points = g.maxPoints) ∧
        gF.players.drop k = g.players.drop k := by
  have hps := prepShuffle_players shW shB g
  have hmp := prepShuffle_maxPoints shW shB g
  set gs := prepShuffle shW shB g with hgs
  set L := prepLoop gs.maxPoints gs.players gs.deckW with hL
  have hw2 : ∃ np ∈ gs.players, np.2.points = gs.maxPoints := by
    rw [hps, hmp]
    exact hw
  have hend : L.2.2 = true := by
    rw [hL]
    exact prepLoop_ended_of_winner _ _ _ hw2
  have hgoal : prepareRound shW shB g =
      prepFinish { gs with players := L.1, deckW := L.2.1 } L.2.2 := rfl
  rw [hend] at hgoal
  have hfin : prepFinish { gs with players := L.1, deckW := L.2.1 } true =
      .ok (endGame { gs with players := L.1, deckW := L.2.1 }) := by
    unfold prepFinish
    rw [if_pos rfl]
  rw [hfin] at hgoal
  refine ⟨_, hgoal, rfl, rfl, ?_, ?_⟩
  · intro n
    have hp := prepareRound_pointsOf shW shB g n
    rw [hgoal] at hp
    exact hp
  · obtain ⟨k, hk, htake, hwin, hpres⟩ :=
      prepLoop_first_winner gs.maxPoints gs.players gs.deckW hw2
    rw [← hL] at hpres
    rw [hps] at hk htake hwin
    rw [hmp] at htake hwin
    refine ⟨k, hk, htake, hwin, ?_⟩
    show List.drop k L.1 = List.drop k g.players
    rw [hpres, hps]

/-- C6 witness: the amended behaviour on the two-player state. -/
theorem cahC6_witness :
    (∃ np ∈ gC6.players, np.2.points = gC6.maxPoints) ∧
    (∃ gF, prepareRound id id gC6 = .ok gF ∧ gF.state = .over ∧
      gF.scores = tallyScores gF.players ∧
      (∀ n, pointsOf gF n = pointsOf gC6 n) ∧
      ∃ k, k < gC6.players.length ∧
        (∀ np ∈ gC6.players.take k, np.2.points ≠ gC6.maxPoints) ∧
        (∃ w rest, gC6.players.drop k = w :: rest ∧
          w.2.points = gC6.maxPoints) ∧
        gF.players.drop k = gC6.players.drop k) :=
  ⟨⟨("b", ⟨.waiting, 5, []⟩), by decide, rfl⟩,
    cahC6_end_on_winner id id gC6 ⟨("b", ⟨.waiting, 5, []⟩), by decide, rfl⟩⟩

/-- The shuffle stage keeps the submissions. -/
theorem prepShuffle_choices (shW : List Val → List Val)
    (shB : List String → List String) (g : Game) :
    (prepShuffle shW shB g).choices = g.choices := by
  unfold prepShuffle
  split <;> rfl

/-- Returning submissions to hands keeps the roster size. -/
theorem foldl_giveBack_length (cs : List (String × Val))
    (ps : List (String × PlayerRec)) :
    (cs.foldl giveBack ps).length = ps.length := by
  have h := congrArg List.length (keys_foldl_giveBack cs ps)
  simpa using h

/-- Round preparation keeps the roster size. -/
theorem prepareRound_length (shW : List Val → List Val)
    (shB : List String → List String) (g : Game) :
    (resState (prepareRound shW shB g)).players.length =
      g.players.length := by
  have h := congrArg List.length (prepareRound_keys shW shB g)
  simpa using h

/-- A successful round preparation either opens a fresh round with the
submissions cleared, or ends the game with the submissions kept. -/
theorem prepareRound_ok_cases (shW : List Val → List Val)
    (shB : List String → List String) (g gF : Game)
    (h : prepareRound shW shB g = .ok gF) :
    (gF.state = .waitingChoices ∧ gF.choices = []) ∨
    (gF.state = .over ∧ gF.choices = g.choices) := by
  rcases prepFinish_ok_cases (prepDraw (prepShuffle shW shB g)).1
      (prepDraw (prepShuffle shW shB g)).2 gF h with h1 | h1
  · exact Or.inl ⟨h1.1, h1.2.1⟩
  · refine Or.inr ⟨h1.1, ?_⟩
    rw [h1.2.1]
    exact prepShuffle_choices shW shB g

/-- `_prepare_picks` on success: picking phase, same roster size,
shuffled submissions. -/
theorem preparePicks_ok (shC : List (String × Val) → List (String × Val))
    (g0 g2 : Game) (h : preparePicks shC g0 = .ok g2) :
    g2.state = .waitingPick ∧ g2.players.length = g0.players.length ∧
      g2.choices = shC g0.choices := by
  obtain ⟨mp, ps, cs, sc, st, pi, bc, rq, dq, dw, db⟩ := g0
  cases pi with
  | none => cases h
  | some pk =>
    simp only [preparePicks, Except.ok.injEq] at h
    subst h
    exact ⟨rfl, by simp [updateP_length], rfl⟩

/-- `Game.choose` transitions to the picking phase exactly when the
appended submission makes the count reach the player count minus one. -/
theorem gameChoose_transition (shC : List (String × Val) → List (String × Val))
    (g g2 : Game) (n : String) (staged : List Val)
    (h : gameChoose shC g n staged = .ok g2) :
    (g2.state = .waitingPick ↔
      (g.players.length : Int) - 1 = (g.choices.length : Int) + 1) ∧
    (¬ g2.state = .waitingPick → g2.state = .waitingChoices) := by
  unfold gameChoose at h
  split at h
  · cases h
  · rename_i hstate0
    have hwc : g.state = .waitingChoices := by
      by_contra hne
      exact hstate0 hne
    split at h
    · cases h
    · split at h
      · cases h
      · split at h
        · cases h
        · dsimp only at h
          split at h
          · rename_i hcond
            obtain ⟨hwp, _, _⟩ := preparePicks_ok shC _ g2 h
            rw [hwp]
            constructor
            · constructor
              · intro _
                simpa using hcond
              · intro _
                rfl
            · intro hne
              exact absurd rfl hne
          · rename_i hcond
            simp only [Except.ok.injEq] at h
            subst h
            constructor
            · constructor
              · intro hwp
                simp only at hwp
                rw [hwc] at hwp
                cases hwp
              · intro hcnt
                exact absurd (by simpa using hcnt) hcond
            · intro _
              simp only
              exact hwc

/-- `Game.pick`, when it succeeds, hands the game to `_prepare_round`,
which never yields the picking phase. -/
theorem pick_ok_state (shW : List Val → List Val)
    (shB : List String → List String) (g : Game) (c : String) (g2 : Game)
    (h : pick shW shB g c = .ok g2) :
    g2.state = .waitingChoices ∨ g2.state = .over := by
  unfold pick at h
  split at h
  · cases h
  · split at h
    · cases h
    · split at h
      · cases h
      · exact prepareRound_ok_state shW shB _ g2 h

/-- Roster size through a successful round preparation. -/
theorem prepareRound_ok_length (shW : List Val → List Val)
    (shB : List String → List String) (g gF : Game)
    (h : prepareRound shW shB g = .ok gF) :
    gF.players.length = g.players.length := by
  have hlen := prepareRound_length shW shB g
  rw [h] at hlen
  exact hlen

/-- The advance-to-pick branch of `remove_player`: from the
waiting-for-choices state, a successful removal leaves the game in the
picking phase exactly when, afterwards, at least three players remain
and the submission count equals the player count minus one. -/
theorem removeCore_transition (shW : List Val → List Val)
    (shB : List String → List String)
    (shC : List (String × Val) → List (String × Val)) (g0 : Game)
    (name : String) (pl : PlayerRec) (g2 : Game)
    (hst : g0.state = .waitingChoices)
    (hshC : ∀ l, (shC l).length = l.length)
    (h : removeCore shW shB shC g0 name pl = .ok g2) :
    g2.state = .waitingPick ↔
      (3 ≤ g2.players.length ∧
        (g2.players.length : Int) - 1 = (g2.choices.length : Int)) := by
  unfold removeCore at h
  dsimp only at h
  split at h
  · rename_i hcond1
    simp only [Except.ok.injEq] at h
    subst h
    simp only [endGame]
    constructor
    · intro hwp
      cases hwp
    · rintro ⟨h3, _⟩
      have h3b : 3 ≤ g0.players.length := h3
      have hlt := hcond1.2
      omega
  · rename_i hcond1
    have h3 : 3 ≤ g0.players.length := by
      by_contra hlt
      refine hcond1 ⟨?_, ?_⟩
      · intro hx
        have hx2 : g0.state = GState.starting := hx
        rw [hst] at hx2
        cases hx2
      · have h4 : g0.players.length < 3 := by omega
        exact h4
    split at h
    · rename_i hcond2
      obtain ⟨hwp, hlenp, hch⟩ := preparePicks_ok shC _ g2 h
      have hlenp2 : g2.players.length = g0.players.length := hlenp
      have hc2 : (g0.players.length : Int) - 1 =
          ((exciseLoop name 0 g0.choices []).1.length : Int) := hcond2.2
      rw [hwp]
      constructor
      · intro _
        refine ⟨by omega, ?_⟩
        rw [hch, hshC]
        show (g2.players.length : Int) - 1 =
          ((exciseLoop name 0 g0.choices []).1.length : Int)
        omega
      · intro _
        rfl
    · rename_i hcond2
      have hcnt : ¬((g0.players.length : Int) - 1 =
          ((exciseLoop name 0 g0.choices []).1.length : Int)) := by
        intro hx
        exact hcond2 ⟨hst, hx⟩
      split at h
      · split at h
        · cases h
        · rename_i pk hpk
          split at h
          · have hlen := prepareRound_ok_length shW shB _ g2 h
            simp only [foldl_giveBack_length] at hlen
            have hlen2 : g2.players.length = g0.players.length := hlen
            rcases prepareRound_ok_cases shW shB _ g2 h with
              ⟨hwcF, hchF⟩ | ⟨hovF, hchF⟩
            · rw [hwcF]
              constructor
              · intro hx
                cases hx
              · rintro ⟨hge, hcnt2⟩
                rw [hchF] at hcnt2
                simp only [List.length_nil] at hcnt2
                omega
            · rw [hovF]
              constructor
              · intro hx
                cases hx
              · rintro ⟨hge, hcnt2⟩
                rw [hchF] at hcnt2
                have hcnt3 : (g0.players.length : Int) - 1 =
                    ((exciseLoop name 0 g0.choices []).1.length : Int) := by
                  rw [← hlen2]
                  exact hcnt2
                exact (hcnt hcnt3).elim
          · simp only [Except.ok.injEq] at h
            subst h
            constructor
            · intro hx
              have hx2 : g0.state = GState.waitingPick := hx
              rw [hst] at hx2
              cases hx2
            · rintro ⟨hge, hcnt2⟩
              have hcnt3 : (g0.players.length : Int) - 1 =
                  ((exciseLoop name 0 g0.choices []).1.length : Int) := hcnt2
              exact (hcnt hcnt3).elim
      · rename_i hns
        refine (hns ?_).elim
        intro hx
        have hx2 : g0.state = GState.starting := hx
        rw [hst] at hx2
        cases hx2

/-- C7: in the waiting-for-choices phase the game moves to the picking
phase exactly when the submission count equals the registered player
count minus one: a successful `choose` triggers it precisely when the
appended submission reaches that count; a successful `remove_player`
(the working plugin.py copy) triggers it precisely when at least three
players remain and the counts are equal afterwards; and no other
operation produces the picking phase — a successful `pick` always lands
in WaitingForChoices or Over. -/
theorem cahC7_exact_transition (shW : List Val → List Val)
    (shB : List String → List String)
    (shC : List (String × Val) → List (String × Val))
    (hshC : ∀ l, (shC l).length = l.length) :
    (∀ g n staged g2, gameChoose shC g n staged = .ok g2 →
      (g2.state = .waitingPick ↔
        (g.players.length : Int) - 1 = (g.choices.length : Int) + 1)) ∧
    (∀ g n g2, g.state = .waitingChoices →
      pluginRemovePlayer shW shB shC g n = .ok g2 →
      (g2.state = .waitingPick ↔
        (3 ≤ g2.players.length ∧
          (g2.players.length : Int) - 1 = (g2.choices.length : Int)))) ∧
    (∀ g c g2, pick shW shB g c = .ok g2 → g2.state ≠ .waitingPick) := by
  refine ⟨?_, ?_, ?_⟩
  · intro g n staged g2 h
    exact (gameChoose_transition shC g g2 n staged h).1
  · intro g n g2 hst h
    unfold pluginRemovePlayer at h
    split at h
    · cases h
    · rename_i pl hl
      dsimp only at h
      split at h
      · cases h
      · rename_i dq hdq
        exact removeCore_transition shW shB shC _ n pl g2 (by exact hst) hshC h
  · intro g c g2 h
    rcases pick_ok_state shW shB g c g2 h with h1 | h1 <;> rw [h1] <;>
      intro hx <;> cases hx

/-- C7 witness: a concrete choose that reaches the count and flips the
phase to picking. -/
theorem cahC7_witness :
    gameChoose id gC7 "b" [Val.s "m"] =
      .ok (resState (gameChoose id gC7 "b" [Val.s "m"])) ∧
    ((resState (gameChoose id gC7 "b" [Val.s "m"])).state = .waitingPick ↔
      (gC7.players.length : Int) - 1 = (gC7.choices.length : Int) + 1) :=
  ⟨rfl, (cahC7_exact_transition id id id (fun _ => rfl)).1 gC7 "b"
    [Val.s "m"] _ rfl⟩

/-- Membership in the give-back fold traces back to a roster entry with
the same name and points. -/
theorem foldl_giveBack_points_mem (cs : List (String × Val))
    (ps : List (String × PlayerRec)) (np : String × PlayerRec)
    (h : np ∈ cs.foldl giveBack ps) :
    ∃ np0 ∈ ps, np0.1 = np.1 ∧ np0.2.points = np.2.points := by
  have hpk := pointsKeys_foldl_giveBack cs ps
  have hm : (np.1, np.2.points) ∈ pointsKeys (cs.foldl giveBack ps) :=
    List.mem_map_of_mem _ h
  rw [hpk] at hm
  obtain ⟨np0, hmem, heq⟩ := List.mem_map.mp hm
  have h12 : np0.1 = np.1 ∧ np0.2.points = np.2.points := by
    simpa using heq
  exact ⟨np0, hmem, h12.1, h12.2⟩

/-- C4 counterexample: a judging phase with four players, judge a and an
exhausted prompt deck (reachable: the last prompt was dealt for the
round in progress).  Removing the judge succeeds but ENDS the game
(state Over) instead of beginning the fresh round the claim promises. -/
theorem cahC4_counterexample :
    resErr (pluginRemovePlayer id id id gC4x "a") = none ∧
    (resState (pluginRemovePlayer id id id gC4x "a")).state = .over ∧
    gC4x.state = .waitingPick ∧ gC4x.picker = some "a" ∧
    4 ≤ gC4x.players.length := by decide

/-- C4 (amended): in a judging phase with at least four registered
players, removing the acting judge (who holds no submission, as judges
do not submit) returns each pending submission's stored choice value to
its submitter's hand and re-runs round preparation; PROVIDED no
remaining player is at the win threshold, the white deck can cover the
redraws and the black deck is non-empty, a fresh round begins: the state
returns to WaitingForChoices, the submissions are cleared, a new prompt
is dealt, and the new judge is a still-registered player different from
the departed one.  (If a deck is exhausted, the same removal instead
ends the game — see the counterexample.) -/
theorem cahC4_judge_departure (shW : List Val → List Val)
    (shB : List String → List String)
    (shC : List (String × Val) → List (String × Val)) (g : Game)
    (name : String) (pl : PlayerRec)
    (hshW : ∀ l, List.Perm (shW l) l)
    (hstate : g.state = .waitingPick)
    (hn : 4 ≤ g.players.length)
    (hnd : (g.players.map Prod.fst).Nodup)
    (hdq : List.Perm g.playDeque (g.players.map Prod.fst))
    (hpk : g.picker = some name)
    (hl : lookupP g.players name = some pl)
    (hwin : ∀ np ∈ eraseP g.players name, np.2.points ≠ g.maxPoints)
    (hch : ∀ c ∈ g.choices, c.1 ≠ name ∧
      (lookupP (eraseP g.players name) c.1).isSome)
    (hdB : g.deckB ≠ [])
    (hdW : 10 * g.players.length + 1 ≤ g.deckW.length) :
    ∃ g2 pk, pluginRemovePlayer shW shB shC g name = .ok g2 ∧
      g2.state = .waitingChoices ∧
      g2.picker = some pk ∧ pk ≠ name ∧ (lookupP g2.players pk).isSome ∧
      g2.choices = [] ∧ g2.blackCard.isSome ∧
      (∀ c ∈ g.choices, ∃ p2, lookupP g2.players c.1 = some p2 ∧
        c.2 ∈ p2.hand) := by
  have hsome : (lookupP g.players name).isSome := by
    rw [hl]
    rfl
  have hmemk : name ∈ g.players.map Prod.fst :=
    (lookupP_isSome_iff _ _).mp hsome
  have hmemq : name ∈ g.playDeque := hdq.mem_iff.mpr hmemk
  have hrem : listRemove g.playDeque name = some (g.playDeque.erase name) :=
    listRemove_of_mem _ _ hmemq
  have hex : exciseLoop name 0 g.choices [] = (g.choices, []) :=
    exciseLoop_clean name 0 g.choices [] (fun c hc => (hch c hc).1)
  have hplen : (eraseP g.players name).length + 1 = g.players.length :=
    eraseP_length g.players name hsome
  have hst3 : g.state ≠ GState.starting := by
    rw [hstate]
    intro hx
    cases hx
  have hc1 : ¬(g.state ≠ GState.starting ∧
      (eraseP g.players name).length < 3) := by
    rintro ⟨-, hlt⟩
    omega
  have hc2 : ¬(g.state = GState.waitingChoices ∧
      ((eraseP g.players name).length : Int) - 1 = (g.choices.length : Int)) := by
    rintro ⟨hwc, -⟩
    rw [hstate] at hwc
    cases hwc
  have hred : pluginRemovePlayer shW shB shC g name = prepareRound shW shB
      { g with
        players := g.choices.foldl giveBack (eraseP g.players name),
        playDeque := g.playDeque.erase name,
        deckW := shW ((g.deckW ++ pl.hand.reverse) ++ []) } := by
    unfold pluginRemovePlayer removeCore
    rw [hl]
    dsimp only
    rw [hrem]
    dsimp only
    rw [hex]
    dsimp only
    rw [if_neg hc1, if_neg hc2, if_pos hst3, hpk]
    dsimp only
    rw [if_pos rfl]
  have hw3 : ∀ np ∈ g.choices.foldl giveBack (eraseP g.players name),
      np.2.points ≠ g.maxPoints := by
    intro np hm
    obtain ⟨np0, hm0, _, hpts⟩ := foldl_giveBack_points_mem _ _ np hm
    rw [← hpts]
    exact hwin np0 hm0
  have hlen3 : (g.choices.foldl giveBack (eraseP g.players name)).length =
      g.players.length - 1 := by
    rw [foldl_giveBack_length]
    omega
  have hdW3 : 10 * (g.choices.foldl giveBack (eraseP g.players name)).length <
      (shW ((g.deckW ++ pl.hand.reverse) ++ [])).length := by
    have hp := (hshW ((g.deckW ++ pl.hand.reverse) ++ [])).length_eq
    rw [hp]
    simp only [List.append_nil, List.length_append, List.length_reverse]
    rw [hlen3]
    omega
  have hqlen : (g.playDeque.erase name).length = g.players.length - 1 := by
    rw [List.length_erase_of_mem hmemq, hdq.length_eq]
    simp
  have hdq3 : g.playDeque.erase name ≠ [] := by
    intro hnil
    rw [hnil] at hqlen
    simp at hqlen
    omega
  obtain ⟨gF, pkF, hok, hwc, hpicker, hpkmem, hchoices, hbc⟩ :=
    prepareRound_fresh shW shB
      { g with
        players := g.choices.foldl giveBack (eraseP g.players name),
        playDeque := g.playDeque.erase name,
        deckW := shW ((g.deckW ++ pl.hand.reverse) ++ []) }
      (by exact hst3) (by exact hw3) (by exact hdW3) hdB (by exact hdq3)
  have hkeys : gF.players.map Prod.fst = (g.players.map Prod.fst).erase name := by
    have hk := prepareRound_keys shW shB
      { g with
        players := g.choices.foldl giveBack (eraseP g.players name),
        playDeque := g.playDeque.erase name,
        deckW := shW ((g.deckW ++ pl.hand.reverse) ++ []) }
    rw [hok] at hk
    have hk2 : gF.players.map Prod.fst =
        (g.choices.foldl giveBack (eraseP g.players name)).map Prod.fst := hk
    rw [hk2, keys_foldl_giveBack, eraseP_keys]
  have hqnodup : g.playDeque.Nodup := hdq.nodup_iff.mpr hnd
  have hpkmem2 : pkF ∈ g.playDeque.erase name := hpkmem
  have hpkne : pkF ≠ name := ((hqnodup.mem_erase_iff).mp hpkmem2).1
  have hpkreg : (lookupP gF.players pkF).isSome := by
    rw [lookupP_isSome_iff, hkeys]
    have hperm : List.Perm (g.playDeque.erase name)
        ((g.players.map Prod.fst).erase name) := hdq.erase name
    exact hperm.mem_iff.mp hpkmem2
  refine ⟨gF, pkF, ?_, hwc, hpicker, hpkne, hpkreg, hchoices,
    by rw [hbc]; rfl, ?_⟩
  · rw [hred]
    exact hok
  · intro c hc
    obtain ⟨p3, hp3, hv3⟩ := foldl_giveBack_mem g.choices
      (eraseP g.players name) c hc (hch c hc).2
    obtain ⟨p2, hp2, _, t, ht⟩ := prepareRound_ok_lookup shW shB
      { g with
        players := g.choices.foldl giveBack (eraseP g.players name),
        playDeque := g.playDeque.erase name,
        deckW := shW ((g.deckW ++ pl.hand.reverse) ++ []) }
      gF hok c.1 p3 (by exact hp3)
    refine ⟨p2, hp2, ?_⟩
    rw [ht]
    exact List.mem_append_left _ hv3

/-- C4 witness: removing judge a from a four-player judging phase with
ample decks starts a fresh round with a different judge and returns the
submissions to their authors' hands. -/
theorem cahC4_witness :
    gC4w.state = .waitingPick ∧ 4 ≤ gC4w.players.length ∧
    (∃ g2 pk, pluginRemovePlayer id id id gC4w "a" = .ok g2 ∧
      g2.state = .waitingChoices ∧
      g2.picker = some pk ∧ pk ≠ "a" ∧ (lookupP g2.players pk).isSome ∧
      g2.choices = [] ∧ g2.blackCard.isSome ∧
      (∀ c ∈ gC4w.choices, ∃ p2, lookupP g2.players c.1 = some p2 ∧
        c.2 ∈ p2.hand)) :=
  ⟨rfl, by decide,
    cahC4_judge_departure id id id gC4w "a" ⟨.picking, 0, []⟩
      (fun l => List.Perm.refl l) rfl (by decide) (by decide) (by decide)
      rfl (by decide) (by decide) (by decide) (by decide) (by decide)⟩

/-- Deleting one key leaves every other lookup unchanged. -/
theorem lookupP_eraseP_ne (ps : List (String × PlayerRec)) (n m : String)
    (h : m ≠ n) : lookupP (eraseP ps n) m = lookupP ps m := by
  induction ps with
  | nil => rfl
  | cons hd tl ih =>
    obtain ⟨m0, p0⟩ := hd
    by_cases he : m0 = n
    · have h1 : eraseP ((m0, p0) :: tl) n = tl := by
        simp [eraseP, he]
      have hm : ¬(m0 = m) := fun e => h (e.symm.trans he)
      have h2 : lookupP ((m0, p0) :: tl) m = lookupP tl m := by
        simp [lookupP, hm]
      rw [h1, h2]
    · have h1 : eraseP ((m0, p0) :: tl) n = (m0, p0) :: eraseP tl n := by
        simp [eraseP, he]
      rw [h1]
      by_cases hm : m0 = m
      · simp [lookupP, hm]
      · simp [lookupP, hm, ih]

/-- Fresh-round preparation, with the fate of the prompt deck: the dealt
prompt is the deck's last line and the remaining deck is the rest. -/
theorem prepareRound_fresh_deckB (shW : List Val → List Val)
    (shB : List String → List String) (g : Game)
    (hst : g.state ≠ .starting)
    (hw : ∀ np ∈ g.players, np.2.points ≠ g.maxPoints)
    (hdW : 10 * g.players.length < g.deckW.length)
    (hdB : g.deckB ≠ []) (hdq : g.playDeque ≠ []) :
    ∃ gF, prepareRound shW shB g = .ok gF ∧
      gF.blackCard = some (g.deckB.getLast hdB) ∧
      gF.deckB = g.deckB.dropLast := by
  have hid := prepShuffle_of_not_starting shW shB g hst
  have hgoal : prepareRound shW shB g =
      prepFinish { prepShuffle shW shB g with
        players := (prepLoop (prepShuffle shW shB g).maxPoints
          (prepShuffle shW shB g).players (prepShuffle shW shB g).deckW).1,
        deckW := (prepLoop (prepShuffle shW shB g).maxPoints
          (prepShuffle shW shB g).players (prepShuffle shW shB g).deckW).2.1 }
        (prepLoop (prepShuffle shW shB g).maxPoints
          (prepShuffle shW shB g).players (prepShuffle shW shB g).deckW).2.2 := rfl
  rw [hid] at hgoal
  have hend : (prepLoop g.maxPoints g.players g.deckW).2.2 = false :=
    prepLoop_not_ended _ _ _ hw
  rw [hend] at hgoal
  have hlen := prepLoop_deck_length g.maxPoints g.players g.deckW
  have hW2 : (prepLoop g.maxPoints g.players g.deckW).2.1.length ≠ 0 := by
    omega
  have hfresh := prepFinish_fresh
    { g with
      players := (prepLoop g.maxPoints g.players g.deckW).1,
      deckW := (prepLoop g.maxPoints g.players g.deckW).2.1 }
    (by exact hW2) (by exact hdB) (by exact hdq)
  rw [hgoal]
  exact ⟨_, hfresh, rfl, rfl⟩

/-- In a duplicate-free list, the last element does not recur earlier. -/
theorem getLast_not_mem_dropLast {α : Type} (l : List α) (h : l ≠ [])
    (hnd : l.Nodup) : l.getLast h ∉ l.dropLast := by
  intro hmem
  have hsplit : l.dropLast ++ [l.getLast h] = l :=
    List.dropLast_append_getLast h
  rw [← hsplit] at hnd
  have hdisj := List.disjoint_of_nodup_append hnd
  exact hdisj hmem (List.mem_singleton_self _)

/-- C3 counterexample: removing player b, whose submission "x" is
pending, succeeds and "returns" the submission to the response deck —
but as the (player, choice) TUPLE, not as a plain card value: the deck
gains `Val.pr "b" "x"` while the plain card "x" is nowhere in it. -/
theorem cahC3_counterexample :
    resErr (pluginRemovePlayer id id id gC3 "b") = none ∧
    gC3.choices = [("b", Val.s "x")] ∧
    Val.pr (Val.s "b") (Val.s "x") ∈
      (resState (pluginRemovePlayer id id id gC3 "b")).deckW ∧
    Val.s "x" ∉ (resState (pluginRemovePlayer id id id gC3 "b")).deckW ∧
    (resState (pluginRemovePlayer id id id gC3 "b")).choices = [] := by
  decide

/-- C3 (amended): the dealing direction of the conservation claim holds
— a card drawn into a hand from a duplicate-free response deck is gone
from the remaining deck, and the prompt dealt by round preparation from
a duplicate-free prompt deck is gone from the remaining prompt deck.
For the return direction: when a player with one pending submission is
removed (mid-WaitingForChoices, enough players remain, the removal does
not complete the submission round, and the player is not the judge),
their held cards return to the response deck as plain card values —
every plain card's multiplicity grows by its multiplicity in the
departing hand — but the excised submission enters the deck WRAPPED AS
THE (player, choice) PAIR, not as a card value; the submission itself
is deleted from the pending list and every other player's roster entry
is untouched. -/
theorem cahC3_conservation (shW : List Val → List Val)
    (shB : List String → List String)
    (shC : List (String × Val) → List (String × Val)) (g : Game)
    (name : String) (pl : PlayerRec) (pre post : List (String × Val))
    (v : Val) (pk0 : String)
    (hshW : ∀ l, List.Perm (shW l) l)
    (hst : g.state = .waitingChoices)
    (hn : 4 ≤ g.players.length)
    (hnd : (g.players.map Prod.fst).Nodup)
    (hl : lookupP g.players name = some pl)
    (hmemq : name ∈ g.playDeque)
    (hch : g.choices = pre ++ (name, v) :: post)
    (hpre : ∀ c ∈ pre, c.1 ≠ name)
    (hpost : ∀ c ∈ post, c.1 ≠ name)
    (hcnt : ¬(((eraseP g.players name).length : Int) - 1 =
      ((pre ++ post).length : Int)))
    (hpk : g.picker = some pk0) (hpkne : pk0 ≠ name) :
    (∀ (hand dw : List Val) (size : Nat), dw.Nodup →
      ∀ c ∈ (draw hand dw size).1, c ∉ hand → c ∉ (draw hand dw size).2) ∧
    (∀ (gb : Game), gb.state ≠ .starting →
      (∀ np ∈ gb.players, np.2.points ≠ gb.maxPoints) →
      10 * gb.players.length < gb.deckW.length →
      gb.deckB ≠ [] → gb.playDeque ≠ [] → gb.deckB.Nodup →
      ∃ gF bc, prepareRound shW shB gb = .ok gF ∧
        gF.blackCard = some bc ∧ bc ∉ gF.deckB) ∧
    (∃ g2, pluginRemovePlayer shW shB shC g name = .ok g2 ∧
      (∀ t : String, List.count (Val.s t) g2.deckW =
        List.count (Val.s t) g.deckW + List.count (Val.s t) pl.hand) ∧
      Val.pr (Val.s name) v ∈ g2.deckW ∧
      g2.choices = pre ++ post ∧
      lookupP g2.players name = none ∧
      (∀ m, m ≠ name → lookupP g2.players m = lookupP g.players m)) := by
  refine ⟨?_, ?_, ?_⟩
  · intro hand dw size hnd2 c hc hh
    exact draw_fresh_not_in_deck hand dw size hnd2 c hc hh
  · intro gb h1 h2 h3 h4 h5 h6
    obtain ⟨gF, hok, hbc, hdb⟩ :=
      prepareRound_fresh_deckB shW shB gb h1 h2 h3 h4 h5
    refine ⟨gF, _, hok, hbc, ?_⟩
    rw [hdb]
    exact getLast_not_mem_dropLast _ h4 h6
  · have hsome : (lookupP g.players name).isSome := by
      rw [hl]
      rfl
    have hrem : listRemove g.playDeque name =
        some (g.playDeque.erase name) := listRemove_of_mem _ _ hmemq
    have hex : exciseLoop name 0 g.choices [] =
        (pre ++ post, [Val.pr (Val.s name) v]) := by
      rw [hch]
      exact exciseLoop_single name pre post (name, v) hpre hpost rfl
    have hplen : (eraseP g.players name).length + 1 = g.players.length :=
      eraseP_length g.players name hsome
    have hst3 : g.state ≠ GState.starting := by
      rw [hst]
      intro hx
      cases hx
    have hc1 : ¬(g.state ≠ GState.starting ∧
        (eraseP g.players name).length < 3) := by
      rintro ⟨-, hlt⟩
      omega
    have hc2 : ¬(g.state = GState.waitingChoices ∧
        ((eraseP g.players name).length : Int) - 1 =
          ((pre ++ post).length : Int)) := by
      rintro ⟨-, hx⟩
      exact hcnt hx
    have hred : pluginRemovePlayer shW shB shC g name = .ok
        { g with
          players := eraseP g.players name,
          choices := pre ++ post,
          playDeque := g.playDeque.erase name,
          deckW := shW ((g.deckW ++ pl.hand.reverse) ++
            [Val.pr (Val.s name) v]) } := by
      unfold pluginRemovePlayer removeCore
      rw [hl]
      dsimp only
      rw [hrem]
      dsimp only
      rw [hex]
      dsimp only
      rw [if_neg hc1, if_neg hc2, if_pos hst3, hpk]
      dsimp only
      rw [if_neg hpkne]
    refine ⟨_, hred, ?_, ?_, rfl, ?_, ?_⟩
    · intro t
      show List.count (Val.s t) (shW ((g.deckW ++ pl.hand.reverse) ++
        [Val.pr (Val.s name) v])) = _
      rw [(hshW ((g.deckW ++ pl.hand.reverse) ++
        [Val.pr (Val.s name) v])).count_eq]
      rw [List.count_append, List.count_append, List.count_reverse]
      have hz : List.count (Val.s t) [Val.pr (Val.s name) v] = 0 :=
        List.count_eq_zero.mpr (by simp)
      omega
    · show Val.pr (Val.s name) v ∈ shW ((g.deckW ++ pl.hand.reverse) ++
        [Val.pr (Val.s name) v])
      rw [(hshW ((g.deckW ++ pl.hand.reverse) ++
        [Val.pr (Val.s name) v])).mem_iff]
      simp
    · exact lookupP_eraseP_self g.players name hnd
    · intro m hm
      exact lookupP_eraseP_ne g.players name m hm

/-- C3 witness: the amended return behaviour on the concrete state gC3 —
removing b deletes their pending submission, stores it in the response
deck as the (player, choice) pair, leaves the plain-card multiplicities
at deck-plus-hand, and touches no other roster entry. -/
theorem cahC3_witness :
    gC3.state = .waitingChoices ∧ gC3.choices = [("b", Val.s "x")] ∧
    (∃ g2, pluginRemovePlayer id id id gC3 "b" = .ok g2 ∧
      (∀ t : String, List.count (Val.s t) g2.deckW =
        List.count (Val.s t) gC3.deckW +
          List.count (Val.s t) (⟨.choosing, 0, []⟩ : PlayerRec).hand) ∧
      Val.pr (Val.s "b") (Val.s "x") ∈ g2.deckW ∧
      g2.choices = [] ++ [] ∧
      lookupP g2.players "b" = none ∧
      (∀ m, m ≠ "b" → lookupP g2.players m = lookupP gC3.players m)) :=
  ⟨rfl, rfl,
    (cahC3_conservation id id id gC3 "b" ⟨.choosing, 0, []⟩ [] [] (Val.s "x")
      "a" (fun l => List.Perm.refl l) rfl (by decide) (by decide) (by decide)
      (by decide) rfl (by decide) (by decide) (by decide) rfl
      (by decide)).2.2⟩
